import Mathlib

/-!
Verification of the stratz_scraper task-assignment scheduler.

This file gives a shallow embedding of the scheduler core found in
`src/stratz_scraper/` (the `players`, `hero_stats`, `hero_top100` and `meta`
tables, the assignment loop in `web/assignment.py`, the submission processors
in `web/submissions.py`, and the maintenance routines in `database.py`) and
proves properties of that embedding.

Modelling conventions:
* SQL rows become Lean structures; a table is a `List` of rows.
* Timestamps are integers (seconds); `TIMESTAMPTZ` columns that may be NULL
  become `Option Int`.
* `ORDER BY` clauses are modelled with `List.insertionSort` over the decidable
  relation spelled out in the SQL; `LIMIT k` is `List.take k`.
* A single SQL statement (e.g. a conditional `UPDATE ... WHERE`) is one atomic
  state transition; concurrency over atomic statements is modelled by
  sequential composition of those transitions.
-/

namespace Stratz

/-- Values ever written to the `players.assigned_to` TEXT column by the
scheduler (`'hero'` in `_assign_next_hero` and the refresh branch,
`'discover'` in `_assign_discovery`). -/
inductive Assignee where
  | hero : Assignee
  | discover : Assignee
deriving DecidableEq

/-- A row of the `players` table (schema in
`stratz_scraper/database.py:ensure_schema` plus the `seen_count` column used by
`process_discover_submission`). -/
structure Player where
  steamAccountId : Nat
  depth : Int
  assigned_to : Option Assignee
  assigned_at : Option Int
  hero_refreshed_at : Option Int
  hero_done : Bool
  highest_match_id : Option Int
  discover_done : Bool
  full_write_done : Bool
  seen_count : Int
deriving DecidableEq

/-- A row of the `hero_stats` table. The `matches` column is called
`matchesCount` here because `matches` is a Lean keyword. -/
structure HeroStat where
  steamAccountId : Nat
  heroId : Nat
  matchesCount : Int
  wins : Int
deriving DecidableEq

/-! ## Discovery submission: child upsert (`process_discover_submission`)

The `INSERT ... ON CONFLICT (steamAccountId) DO UPDATE` statement in
`process_discover_submission` sets `depth = LEAST(players.depth,
excluded.depth)` and accumulates `seen_count` while the child's own discovery
is not complete, guarded by
`WHERE players.discover_done = FALSE OR excluded.depth < players.depth`.
-/
/-- The `ON CONFLICT ... DO UPDATE` arm of the child upsert applied to an
existing row `p`, for an incoming child row with depth `d` and seen-weight
`w`. -/
def upsertChild (p : Player) (d : Int) (w : Int) : Player :=
  if p.discover_done = false ∨ d < p.depth then
    { p with
        depth := min p.depth d,
        seen_count :=
          if p.discover_done = false then p.seen_count + w else p.seen_count }
  else p

/-- The `INSERT` arm of the child upsert: a fresh `players` row with the
resolved depth, `hero_done=FALSE`, `discover_done=FALSE` and
`seen_count` equal to the occurrence weight; the remaining columns take their
schema defaults. -/
def newChild (cid : Nat) (d : Int) (w : Int) : Player :=
  { steamAccountId := cid
    depth := d
    assigned_to := none
    assigned_at := none
    hero_refreshed_at := none
    hero_done := false
    highest_match_id := none
    discover_done := false
    full_write_done := false
    seen_count := w }

/-- One child upsert on the (at most one) row of the child account: insert if
absent, `upsertChild` if present. -/
def applyDiscovery (op : Option Player) (cid : Nat) (d : Int) (w : Int) :
    Player :=
  match op with
  | none => newChild cid d w
  | some p => upsertChild p d w

/-- The stored row of child `cid` after a sequence of discovery submissions
that discovered it at the given depths (each with weight 1), starting from an
absent row. -/
def childRowAfter (cid : Nat) (ds : List Int) : Option Player :=
  ds.foldl (fun op d => some (applyDiscovery op cid d 1)) none

/-- The stored depth of child `cid` after the submissions in `ds`. -/
def childDepthAfter (cid : Nat) (ds : List Int) : Option Int :=
  (childRowAfter cid ds).map Player.depth

/-- Running minimum of a list of depths (`none` for the empty list). -/
def minDepth (ds : List Int) : Option Int :=
  ds.foldl (fun acc d => some (acc.elim d (min · d))) none

/-! ## Stale-assignment reclaim (`database.py:release_incomplete_assignments`)

The UPDATE clears `assigned_to`/`assigned_at` on rows with
`assigned_to IS NOT NULL AND (assigned_at IS NULL OR assigned_at <= NOW() -
max_age_minutes)`. The default `max_age_minutes` is 10; with timestamps in
seconds the cutoff is `now - 600`.
-/
/-- The WHERE condition of `release_incomplete_assignments` for one row. -/
def staleAssignment (now timeout : Int) (p : Player) : Bool :=
  p.assigned_to.isSome &&
    (match p.assigned_at with
     | none => true
     | some t => t ≤ now - timeout)

/-- The SET clause of `release_incomplete_assignments` applied to one row. -/
def releaseAssignment (now timeout : Int) (p : Player) : Player :=
  if staleAssignment now timeout p then
    { p with assigned_to := none, assigned_at := none }
  else p

/-- The whole `release_incomplete_assignments` UPDATE over the `players`
table. -/
def release_incomplete_assignments (now timeout : Int)
    (players : List Player) : List Player :=
  players.map (releaseAssignment now timeout)

/-! ## Hero-stat upsert merge rule (`process_hero_submission`, first statement)

The `INSERT ... ON CONFLICT(steamAccountId, heroId) DO UPDATE` keeps the
stored `(matches, wins)` unless `excluded.matches > hero_stats.matches`
(a strict comparison), in which case both columns are overwritten.
-/
/-- The `DO UPDATE` arm of the hero-stat upsert: overwrite `(matches, wins)`
exactly when the incoming `matches` is strictly greater. -/
def mergeHeroStat (stored incoming : HeroStat) : HeroStat :=
  if incoming.matchesCount > stored.matchesCount then
    { stored with matchesCount := incoming.matchesCount, wins := incoming.wins }
  else stored

/-- Modelled from the spec sentence of claim C5 (refinement comparison only):
an incoming row overwrites when its `matches` is greater than **or equal to**
the stored value. -/
def mergeHeroStatSpec (stored incoming : HeroStat) : HeroStat :=
  if incoming.matchesCount ≥ stored.matchesCount then
    { stored with matchesCount := incoming.matchesCount, wins := incoming.wins }
  else stored

/-- Key equality on `hero_stats` rows, the `(steamAccountId, heroId)` primary
key used by the ON CONFLICT clause. -/
def sameStatKey (a b : HeroStat) : Bool :=
  a.steamAccountId == b.steamAccountId && a.heroId == b.heroId

/-- One row of the hero-stat upsert against the whole table: merge into the
conflicting row if present, append otherwise. -/
def upsertHeroStatRow (tbl : List HeroStat) (row : HeroStat) : List HeroStat :=
  if tbl.any (fun t => sameStatKey t row) then
    tbl.map (fun t => if sameStatKey t row then mergeHeroStat t row else t)
  else tbl ++ [row]

/-- The `executemany` of the hero-stat upsert over a submission's rows. -/
def upsertHeroStats (tbl : List HeroStat) (rows : List HeroStat) :
    List HeroStat :=
  rows.foldl upsertHeroStatRow tbl

/-- Lookup of the stored row for a `(steamAccountId, heroId)` pair. -/
def findStat (tbl : List HeroStat) (sid hid : Nat) : Option HeroStat :=
  tbl.find? (fun t => t.steamAccountId == sid && t.heroId == hid)

/-! ## Discovery-cycle restart (`assignment.py:_restart_discovery_cycle`)

The restart UPDATE sets `discover_done=FALSE` and `full_write_done=FALSE` on
every row and clears `assigned_to`/`assigned_at` exactly on rows whose claim
tag is `'discover'` (both CASE expressions read the pre-update row). It does
not touch any other column. In the source the statement is handed to a
single-worker executor after an advisory lock; its net effect on the store is
this one UPDATE.
-/
/-- The SET clause of the restart UPDATE applied to one `players` row. -/
def restartPlayerRow (p : Player) : Player :=
  { p with
      discover_done := false
      full_write_done := false
      assigned_at :=
        if p.assigned_to = some Assignee.discover then none else p.assigned_at
      assigned_to :=
        if p.assigned_to = some Assignee.discover then none else p.assigned_to }

/-- The whole restart UPDATE over the `players` table. -/
def restartDiscoveryCycle (players : List Player) : List Player :=
  players.map restartPlayerRow

/-! ## Task assignment (`assignment.py`)

Scheduler state: the `players` table plus the two `meta` rows the loop uses,
`hero_assignment_cursor` and `task_assignment_counter`. Each SQL statement of
`_assign_next_task_on_connection` and its helpers becomes one atomic state
transition. `ORDER BY` clauses become `List.insertionSort` over the relation
spelled out in the SQL and `LIMIT` becomes `List.take`.
-/
/-- Scheduler state. -/
structure Sched where
  players : List Player
  heroCursor : Int
  counter : Nat
deriving DecidableEq

/-- The constants `MAX_HERO_TASK_SIZE = MAX_DISCOVERY_TASK_SIZE = 5`. -/
def MAX_TASK_SIZE : Nat := 5

/-- The WHERE condition counted by `_discovery_backlog_exceeded`. -/
def backlogRow (p : Player) : Bool :=
  p.discover_done && !p.full_write_done && p.highest_match_id.isSome

/-- The backlog COUNT of `_discovery_backlog_exceeded`. -/
def backlogCount (players : List Player) : Nat :=
  players.countP backlogRow

/-- The `backlog_count > 100` throttle test. -/
def discoveryBacklogExceeded (players : List Player) : Bool :=
  decide (backlogCount players > 100)

/-- The discovery candidate WHERE clause: `hero_done=TRUE AND
discover_done=FALSE AND assigned_to IS NULL`. -/
def discoveryEligible (p : Player) : Bool :=
  p.hero_done && !p.discover_done && p.assigned_to.isNone

/-- The discovery candidate ordering `depth ASC, steamAccountId ASC`. -/
def discLe (a b : Player) : Prop :=
  a.depth < b.depth ∨ (a.depth = b.depth ∧ a.steamAccountId ≤ b.steamAccountId)

instance : DecidableRel discLe := fun a b => by
  unfold discLe
  exact inferInstance

instance : IsTotal Player discLe :=
  ⟨by intro a b; unfold discLe; omega⟩

instance : IsTrans Player discLe :=
  ⟨by intro a b c; unfold discLe; omega⟩

/-- NULLS-FIRST rank of `hero_refreshed_at` (NULL sorts before any value). -/
def refreshNullRank (p : Player) : Int :=
  if p.hero_refreshed_at.isSome then 1 else 0

/-- The `hero_refreshed_at` value when present. -/
def refreshTime (p : Player) : Int :=
  p.hero_refreshed_at.getD 0

/-- The refresh ordering `hero_refreshed_at ASC NULLS FIRST,
steamAccountId ASC`. -/
def refreshLe (a b : Player) : Prop :=
  refreshNullRank a < refreshNullRank b ∨
    (refreshNullRank a = refreshNullRank b ∧
      (refreshTime a < refreshTime b ∨
        (refreshTime a = refreshTime b ∧ a.steamAccountId ≤ b.steamAccountId)))

instance : DecidableRel refreshLe := fun a b => by
  unfold refreshLe
  exact inferInstance

instance : IsTotal Player refreshLe :=
  ⟨by intro a b; unfold refreshLe; omega⟩

instance : IsTrans Player refreshLe :=
  ⟨by intro a b c; unfold refreshLe; omega⟩

/-- The plain `steamAccountId ASC` ordering of `_assign_next_hero`. -/
def idLe (a b : Player) : Prop :=
  a.steamAccountId ≤ b.steamAccountId

instance : DecidableRel idLe := fun a b => by
  unfold idLe
  exact inferInstance

instance : IsTotal Player idLe :=
  ⟨by intro a b; unfold idLe; omega⟩

instance : IsTrans Player idLe :=
  ⟨by intro a b c; unfold idLe; omega⟩

/-- Result of `_assign_discovery`: the throttle sentinel, no candidate, or a
`discover_matches` payload with the claimed account ids in `(depth, id)`
order. -/
inductive DiscResult where
  | throttled : DiscResult
  | empty : DiscResult
  | task : List Nat → DiscResult
deriving DecidableEq

/-- The special-case UPDATE for account 0 inside `_assign_discovery`:
`SET discover_done=TRUE, full_write_done=TRUE WHERE steamAccountId=0`. -/
def markAccountZeroDone (players : List Player) : List Player :=
  players.map (fun p =>
    if p.steamAccountId = 0 then
      { p with discover_done := true, full_write_done := true }
    else p)

/-- The conditional claim UPDATE shared by `_assign_discovery`: rows whose id
is in the candidate set and whose `assigned_to` is still NULL get
`assigned_to='discover', assigned_at=now`. -/
def claimDiscoveryRows (now : Int) (ids : List Nat) (players : List Player) :
    List Player :=
  players.map (fun p =>
    if ids.contains p.steamAccountId && p.assigned_to.isNone then
      { p with assigned_to := some Assignee.discover, assigned_at := some now }
    else p)

/-- The discovery candidate CTE: up to 5 eligible ids in
`(depth ASC, steamAccountId ASC)` order. -/
def discCandIds (players : List Player) : List Nat :=
  ((List.insertionSort discLe (players.filter discoveryEligible)).take
      MAX_TASK_SIZE).map
    Player.steamAccountId

/-- The rows the discovery claim UPDATE actually touches and RETURNs: rows of
the candidate set whose `assigned_to` is still NULL. -/
def discReturned (players : List Player) : List Player :=
  players.filter (fun p =>
    (discCandIds players).contains p.steamAccountId && p.assigned_to.isNone)

/-- The store after the discovery claim UPDATE and the account-0 special-case
UPDATE (the latter runs exactly when a returned row is account 0). -/
def discPostClaim (now : Int) (players : List Player) : List Player :=
  if (discReturned players).any (fun p => p.steamAccountId == 0) then
    markAccountZeroDone (claimDiscoveryRows now (discCandIds players) players)
  else claimDiscoveryRows now (discCandIds players) players

/-- The returned rows that make it into the payload (account 0 is skipped). -/
def discEntries (players : List Player) : List Player :=
  (discReturned players).filter (fun p => p.steamAccountId ≠ 0)

/-- The body of `_assign_discovery`. The Python function recurses when every
claimed row was the special account 0; the recursion depth is bounded by the
table size, so the embedding takes an explicit fuel argument (the caller
passes `players.length + 1`, more than any possible recursion depth; the
fuel-exhausted arm is unreachable). -/
def assignDiscoveryAux (now : Int) :
    Nat → List Player → List Player × DiscResult
  | 0, players => (players, DiscResult.empty)
  | fuel + 1, players =>
    if discoveryBacklogExceeded players then (players, DiscResult.throttled)
    else if (discReturned players).isEmpty then
      (claimDiscoveryRows now (discCandIds players) players, DiscResult.empty)
    else if (discEntries players).isEmpty then
      assignDiscoveryAux now fuel (discPostClaim now players)
    else
      (discPostClaim now players,
        DiscResult.task
          ((List.insertionSort discLe (discEntries players)).map
            Player.steamAccountId))

/-- The `_assign_discovery` entry point. -/
def assignDiscovery (now : Int) (players : List Player) :
    List Player × DiscResult :=
  assignDiscoveryAux now (players.length + 1) players

/-- The refresh-branch candidate WHERE clause: `hero_done=TRUE AND
assigned_to IS NULL`. -/
def refreshEligible (p : Player) : Bool :=
  p.hero_done && p.assigned_to.isNone

/-- The refresh candidate CTE: up to 5 eligible ids in
`(hero_refreshed_at ASC NULLS FIRST, steamAccountId ASC)` order. -/
def refreshCandIds (players : List Player) : List Nat :=
  ((List.insertionSort refreshLe (players.filter refreshEligible)).take
      MAX_TASK_SIZE).map
    Player.steamAccountId

/-- The refresh claim UPDATE: rows of the candidate set still matching
`hero_done=TRUE AND assigned_to IS NULL` get `hero_done=FALSE,
assigned_to='hero', assigned_at=now`. -/
def claimRefreshRows (now : Int) (ids : List Nat) (players : List Player) :
    List Player :=
  players.map (fun p =>
    if ids.contains p.steamAccountId && p.hero_done && p.assigned_to.isNone
    then
      { p with
          hero_done := false
          assigned_to := some Assignee.hero
          assigned_at := some now }
    else p)

/-- The ids the refresh claim UPDATE RETURNs (in table order). -/
def refreshReturnedIds (players : List Player) : List Nat :=
  (players.filter (fun p =>
      (refreshCandIds players).contains p.steamAccountId && p.hero_done &&
        p.assigned_to.isNone)).map
    Player.steamAccountId

/-- The refresh-due claim of `_assign_next_task_on_connection`: claim up to 5
completed unclaimed accounts in `(hero_refreshed_at ASC NULLS FIRST, id ASC)`
order, flipping `hero_done` back to FALSE; returns the new table and the
claimed ids (in table order, as the RETURNING clause yields them). -/
def claimRefresh (now : Int) (players : List Player) :
    List Player × List Nat :=
  (claimRefreshRows now (refreshCandIds players) players,
    refreshReturnedIds players)

/-- The `sorted(set(...))` the Python applies to returned ids before building
a payload. -/
def sortedIds (l : List Nat) : List Nat :=
  List.insertionSort (fun a b : Nat => a ≤ b) l.dedup

/-- The hero-collection candidate WHERE clause: `hero_done=FALSE AND
assigned_to IS NULL`. -/
def heroEligible (p : Player) : Bool :=
  !p.hero_done && p.assigned_to.isNone

/-- The `candidate` CTE of `_assign_next_hero`: up to 5 unclaimed incomplete
accounts with `steamAccountId > cursor`, in id order. -/
def heroCandIds (s : Sched) : List Nat :=
  ((List.insertionSort idLe
        (s.players.filter (fun p =>
          heroEligible p && decide (s.heroCursor < (p.steamAccountId : Int))))).take
      MAX_TASK_SIZE).map
    Player.steamAccountId

/-- The `fallback` CTE of `_assign_next_hero`: the same with
`steamAccountId > 0`. -/
def heroFallbackIds (s : Sched) : List Nat :=
  ((List.insertionSort idLe
        (s.players.filter (fun p =>
          heroEligible p && decide (0 < p.steamAccountId)))).take
      MAX_TASK_SIZE).map
    Player.steamAccountId

/-- The `selected` CTE: the candidate set when non-empty, else the fallback. -/
def heroSelectedIds (s : Sched) : List Nat :=
  if (heroCandIds s).isEmpty then heroFallbackIds s else heroCandIds s

/-- The hero claim UPDATE: selected rows still matching `hero_done=FALSE AND
assigned_to IS NULL` get `assigned_to='hero', assigned_at=now`. -/
def claimHeroRows (now : Int) (ids : List Nat) (players : List Player) :
    List Player :=
  players.map (fun p =>
    if ids.contains p.steamAccountId && !p.hero_done && p.assigned_to.isNone
    then
      { p with assigned_to := some Assignee.hero, assigned_at := some now }
    else p)

/-- The deduplicated, sorted id list of the rows the hero claim UPDATE
RETURNs. -/
def heroClaimedIds (s : Sched) : List Nat :=
  sortedIds
    ((s.players.filter (fun p =>
        (heroSelectedIds s).contains p.steamAccountId && !p.hero_done &&
          p.assigned_to.isNone)).map
      Player.steamAccountId)

/-- One attempt of `_assign_next_hero`: claim the selected rows; on success
persist the largest claimed id as the new cursor and return the id list. -/
def assignNextHeroAttempt (now : Int) (s : Sched) : Sched × List Nat :=
  if (heroClaimedIds s).isEmpty then
    ({ s with players := claimHeroRows now (heroSelectedIds s) s.players }, [])
  else
    ({ s with
        players := claimHeroRows now (heroSelectedIds s) s.players
        heroCursor := ((heroClaimedIds s).getLastD 0 : Nat) },
      heroClaimedIds s)

/-- `_assign_next_hero`: the `for _ in range(2)` loop, i.e. a second attempt
when the first claims nothing. -/
def assignNextHero (now : Int) (s : Sched) : Sched × Option (List Nat) :=
  match assignNextHeroAttempt now s with
  | (s₁, []) =>
    match assignNextHeroAttempt now s₁ with
    | (s₂, []) => (s₂, none)
    | (s₂, ids) => (s₂, some ids)
  | (s₁, ids) => (s₁, some ids)

/-- A task payload handed to a worker (the id lists of the
`fetch_hero_stats` / `discover_matches` dict payloads). -/
inductive Task where
  | fetch_hero_stats : List Nat → Task
  | discover_matches : List Nat → Task
deriving DecidableEq

/-- Outcome of one iteration of the `while True` loop: either the call
finishes (with or without a task) or the loop continues with
`loop_count = next_count`. -/
inductive IterOut where
  | done : Option Task → Sched → IterOut
  | next : Sched → IterOut
deriving DecidableEq

/-- The tail of the loop body from `_assign_next_hero` on: the plain hero
claim, the `hero_pending` probe, the fallback discovery claim, the
counter increment on success, and the break/continue decision. -/
def heroPhase (now : Int) (s : Sched) (refresh_due discovery_due : Bool) :
    IterOut :=
  match assignNextHero now s with
  | (s', some ids) =>
    IterOut.done (some (Task.fetch_hero_stats ids))
      { s' with counter := s'.counter + 1 }
  | (s', none) =>
    let hero_pending := s'.players.any heroEligible
    if !hero_pending && !discovery_due then
      match assignDiscovery now s'.players with
      | (pl, DiscResult.throttled) => IterOut.next { s' with players := pl }
      | (pl, DiscResult.empty) =>
        if refresh_due || discovery_due then
          IterOut.done none { s' with players := pl }
        else IterOut.next { s' with players := pl }
      | (pl, DiscResult.task ids) =>
        IterOut.done (some (Task.discover_matches ids))
          { s' with players := pl, counter := s'.counter + 1 }
    else
      if refresh_due || discovery_due then IterOut.done none s'
      else IterOut.next s'

/-- One iteration of the `while True` loop of
`_assign_next_task_on_connection` at `next_count = loop_count + 1`:
`refresh_due ↔ next_count % 11 = 0`, `discovery_due ↔ next_count % 199 = 0`;
the discovery-due branch runs `_assign_discovery` (continuing on throttle,
restarting the cycle and continuing when it finds nothing), then the
refresh-due claim, then the hero phase. -/
def loopIterate (now : Int) (s : Sched) (next_count : Nat) : IterOut :=
  let refresh_due := next_count % 11 == 0
  let discovery_due := next_count % 199 == 0
  if discovery_due then
    match assignDiscovery now s.players with
    | (pl, DiscResult.throttled) => IterOut.next { s with players := pl }
    | (pl, DiscResult.empty) =>
      IterOut.next { s with players := restartDiscoveryCycle pl }
    | (pl, DiscResult.task ids) =>
      IterOut.done (some (Task.discover_matches ids))
        { s with players := pl, counter := s.counter + 1 }
  else if refresh_due then
    match claimRefresh now s.players with
    | (pl, []) => heroPhase now { s with players := pl } refresh_due discovery_due
    | (pl, rets) =>
      let ids := sortedIds rets
      if ids.isEmpty then IterOut.next { s with players := pl }
      else
        IterOut.done (some (Task.fetch_hero_stats ids))
          { s with players := pl, counter := s.counter + 1 }
  else heroPhase now s refresh_due discovery_due

/-- The `while True` loop with an explicit iteration budget: `none` means the
budget ran out before the loop finished (the source loop has no budget; claim
C7 is exactly about whether it finishes). -/
def loopGo (now : Int) : Nat → Sched → Nat → Option (Option Task × Sched)
  | 0, _, _ => none
  | fuel + 1, s, loop_count =>
    match loopIterate now s (loop_count + 1) with
    | IterOut.done t s' => some (t, s')
    | IterOut.next s' => loopGo now fuel s' (loop_count + 1)

/-- `_assign_next_task_on_connection`: read the persisted counter and run the
loop (with an explicit iteration budget, see `loopGo`). -/
def assign_next_task (now : Int) (fuel : Nat) (s : Sched) :
    Option (Option Task × Sched) :=
  loopGo now fuel s s.counter

/-! ## Mutual exclusion of claims (claim C1)

Concurrency is modelled as interleaving of the atomic SQL statements. The
claim UPDATEs themselves are mutually exclusive (amended theorem below), but
the whole `RequestTask` call is not: the restart pass releases in-flight
`'discover'` claims, and the interleaving in which a second call reads the
counter before the first call runs exhibits the same account handed to both
callers.
-/
/-- The account ids of a `discover_matches` result. -/
def discTaskIds : DiscResult → List Nat
  | DiscResult.task ids => ids
  | _ => []

/-- The account ids of a hero-claim result. -/
def heroTaskIds : Option (List Nat) → List Nat
  | some ids => ids
  | none => []

/-- Every row of account `a` carries a claim. -/
def allClaimed (a : Nat) (players : List Player) : Prop :=
  ∀ p ∈ players, p.steamAccountId = a → p.assigned_to ≠ none

/-! ## Leaderboard maintenance (claim C2)

The claim is per hero, and every SQL statement of the leaderboard part of
`process_hero_submission` is keyed by `heroId` (the lookups, the COUNT, the
`ROW_NUMBER ... PARTITION BY heroId` threshold, the insert, and the eviction
DELETE), as is the rebuild in `refresh_leaderboard_views`. The embedding
therefore works with the slice of `hero_stats` and `hero_top100` belonging to
one fixed hero: a row is `(steamAccountId, matches, wins)`.
-/
/-- One hero's slice of a `hero_stats` / `hero_top100` row. -/
structure TopRow where
  steamAccountId : Nat
  matchesCount : Int
  wins : Int
deriving DecidableEq

/-- The ranking `ORDER BY matches DESC, wins DESC, steamAccountId ASC` used
by the threshold query and the rebuild. -/
def rankLe (a b : TopRow) : Prop :=
  a.matchesCount > b.matchesCount ∨
    (a.matchesCount = b.matchesCount ∧
      (a.wins > b.wins ∨ (a.wins = b.wins ∧ a.steamAccountId ≤ b.steamAccountId)))

/-- The strict version of `rankLe` (`a` ranks strictly before `b`). -/
def rankLt (a b : TopRow) : Prop :=
  a.matchesCount > b.matchesCount ∨
    (a.matchesCount = b.matchesCount ∧
      (a.wins > b.wins ∨ (a.wins = b.wins ∧ a.steamAccountId < b.steamAccountId)))

/-- The eviction ordering `ORDER BY matches ASC, wins ASC,
steamAccountId DESC` of the DELETE statement. -/
def evictLe (a b : TopRow) : Prop :=
  a.matchesCount < b.matchesCount ∨
    (a.matchesCount = b.matchesCount ∧
      (a.wins < b.wins ∨ (a.wins = b.wins ∧ a.steamAccountId ≥ b.steamAccountId)))

instance : DecidableRel rankLe := fun a b => by
  unfold rankLe
  exact inferInstance

instance : DecidableRel rankLt := fun a b => by
  unfold rankLt
  exact inferInstance

instance : DecidableRel evictLe := fun a b => by
  unfold evictLe
  exact inferInstance

instance : IsTotal TopRow rankLe :=
  ⟨by intro a b; unfold rankLe; omega⟩

instance : IsTrans TopRow rankLe :=
  ⟨by intro a b c; unfold rankLe; omega⟩

instance : IsTotal TopRow evictLe :=
  ⟨by intro a b; unfold evictLe; omega⟩

instance : IsTrans TopRow evictLe :=
  ⟨by intro a b c; unfold evictLe; omega⟩

/-- The rebuild of `refresh_leaderboard_views`, restricted to one hero: rank
the fact rows and keep the first 100 (`ROW_NUMBER ... WHERE rn <= 100`). -/
def top100 (facts : List TopRow) : List TopRow :=
  (List.insertionSort rankLe facts).take 100

/-- The hero-stat upsert of `process_hero_submission` restricted to one hero:
the `ON CONFLICT` arm keeps the stored pair unless the incoming `matches` is
strictly greater. -/
def upsertFact (facts : List TopRow) (a : Nat) (m w : Int) : List TopRow :=
  if facts.any (fun t => t.steamAccountId == a) then
    facts.map (fun t =>
      if t.steamAccountId == a then
        if m > t.matchesCount then { t with matchesCount := m, wins := w }
        else t
      else t)
  else facts ++ [TopRow.mk a m w]

/-- Lookup of the single-hero row of account `a` (the per-account read-backs
`stats_by_hero` / `existing_by_hero`). -/
def findFact (facts : List TopRow) (a : Nat) : Option TopRow :=
  facts.find? (fun t => t.steamAccountId == a)

/-- The per-hero leaderboard update of `process_hero_submission` for the
merged stats `(m, w)` of account `a`: in-place update for an existing member
(only when values changed), direct insert below 100 rows, and
threshold-compare-then-insert-and-evict at 100 rows. The threshold is the
`ROW_NUMBER = 100` row; the eviction deletes the first row in
`(matches ASC, wins ASC, steamAccountId DESC)` order. -/
def lbUpdate (a : Nat) (m w : Int) (lb : List TopRow) : List TopRow :=
  match findFact lb a with
  | some e =>
    if e.matchesCount ≠ m ∨ e.wins ≠ w then
      lb.map (fun t =>
        if t.steamAccountId == a then { t with matchesCount := m, wins := w }
        else t)
    else lb
  | none =>
    if lb.length < 100 then lb ++ [TopRow.mk a m w]
    else
      match (List.insertionSort rankLe lb).get? 99 with
      | none => lb
      | some t =>
        if m < t.matchesCount then lb
        else if m = t.matchesCount ∧ w ≤ t.wins then lb
        else
          match (List.insertionSort evictLe (lb ++ [TopRow.mk a m w])).head? with
          | none => lb ++ [TopRow.mk a m w]
          | some worst => (lb ++ [TopRow.mk a m w]).erase worst

/-- One hero's part of `process_hero_submission`: upsert the submitted fact
row, read the merged stats back, and run the leaderboard update with them. -/
def processHeroStep (facts lb : List TopRow) (a : Nat) (m w : Int) :
    List TopRow × List TopRow :=
  let facts' := upsertFact facts a m w
  match findFact facts' a with
  | none => (facts', lb)
  | some r => (facts', lbUpdate a r.matchesCount r.wins lb)

/-- Account ids of a row list are distinct (both tables have the account id
in their per-hero primary key). -/
def nodupIds (l : List TopRow) : Prop :=
  (l.map TopRow.steamAccountId).Nodup

/-- Number of rows of `S` ranking strictly before `y`. -/
def rankBelow (S : List TopRow) (y : TopRow) : Nat :=
  S.countP (fun z => decide (rankLt z y))

instance : IsAntisymm TopRow rankLe :=
  ⟨by
    intro a b h1 h2
    cases a
    cases b
    unfold rankLe at h1 h2
    dsimp only at h1 h2
    simp only [TopRow.mk.injEq]
    omega⟩

/-- The hero slice of the stored leaderboard before the C2 counterexample
step: 100 rows with identical `(matches, wins) = (10, 5)` and account ids
`2..101`, exactly the top-100 of the fact table. -/
def tieBoard : List TopRow :=
  (List.range 100).map fun i => TopRow.mk (i + 2) 10 5

/-! ## Hero-submission failure compensation (`_unmark_hero_task`)

`process_hero_submission` wraps its whole database phase in
`try/except Exception`: on any failure the transaction of
`db_connection(write=True)` is rolled back (so `hero_stats` and
`hero_top100` keep their prior contents), the failure is printed, and
`_unmark_hero_task(steam_account_id)` runs as compensation, setting
`hero_done=FALSE, hero_refreshed_at=NULL, assigned_to=NULL,
assigned_at=NULL` on the submitting account's row. The handler returns
normally, so the background failure is never surfaced to the worker whose
submission was already acknowledged.
-/
/-- The SET clause of `_unmark_hero_task` applied to one `players` row. -/
def unmarkHeroPlayer (sid : Nat) (p : Player) : Player :=
  if p.steamAccountId = sid then
    { p with
        hero_done := false
        hero_refreshed_at := none
        assigned_to := none
        assigned_at := none }
  else p

/-- The whole `_unmark_hero_task` UPDATE over the `players` table. -/
def unmark_hero_task (sid : Nat) (players : List Player) : List Player :=
  players.map (unmarkHeroPlayer sid)

/-- The state touched by the asynchronous phase of a hero submission: the
`players` table plus the submitted hero's `hero_stats` / `hero_top100`
slices. -/
structure SubmissionState where
  players : List Player
  heroFacts : List TopRow
  heroTop : List TopRow
deriving DecidableEq

/-- The asynchronous phase of `process_hero_submission` for one submitted
hero row `(m, w)` of account `sid`. `fails = true` models any exception
inside the `try` block: the write transaction aborts (fact tables keep
their prior contents) and the `except` handler runs `_unmark_hero_task`;
the handler swallows the exception, so the function is total either way. -/
def process_hero_submission (fails : Bool) (sid : Nat) (m w : Int)
    (s : SubmissionState) : SubmissionState :=
  if fails then
    { s with players := unmark_hero_task sid s.players }
  else
    { s with
        heroFacts := (processHeroStep s.heroFacts s.heroTop sid m w).1,
        heroTop := (processHeroStep s.heroFacts s.heroTop sid m w).2 }

theorem upsertChild_depth (p : Player) (d w : Int) :
    (upsertChild p d w).depth = min p.depth d := by
  unfold upsertChild
  by_cases h : p.discover_done = false ∨ d < p.depth
  · rw [if_pos h]
  · rw [if_neg h]
    push_neg at h
    exact (min_eq_left h.2).symm

theorem childDepthAfter_min (cid : Nat) (ds : List Int) :
    childDepthAfter cid ds = minDepth ds := by
  unfold childDepthAfter childRowAfter minDepth
  induction ds with
  | nil => rfl
  | cons d rest _ =>
    simp only [List.foldl_cons]
    have key : ∀ (l : List Int) (p : Player),
        (l.foldl (fun op d => some (applyDiscovery op cid d 1)) (some p)).map
            Player.depth =
          l.foldl (fun acc d => some (acc.elim d (min · d))) (some p.depth) := by
      intro l
      induction l with
      | nil => intro p; rfl
      | cons e tail ih =>
        intro p
        simp only [List.foldl_cons]
        have : (applyDiscovery (some p) cid e 1).depth = min p.depth e :=
          upsertChild_depth p e 1
        rw [ih (applyDiscovery (some p) cid e 1), this]
        rfl
    have := key rest (applyDiscovery none cid d 1)
    simpa [applyDiscovery, newChild] using this

theorem minDepth_perm {ds₁ ds₂ : List Int} (h : ds₁.Perm ds₂) :
    minDepth ds₁ = minDepth ds₂ := by
  unfold minDepth
  have : RightCommutative
      (fun (acc : Option Int) (d : Int) => some (acc.elim d (min · d))) := by
    constructor
    intro acc d₁ d₂
    match acc with
    | none => simp [min_comm]
    | some m => simp [min_assoc, min_comm d₁ d₂]
  exact h.foldl_eq none

theorem minDepth_cons (d : Int) (rest : List Int) :
    minDepth (d :: rest) = some (rest.foldl min d) := by
  unfold minDepth
  simp only [List.foldl_cons, Option.elim]
  have : ∀ (l : List Int) (m : Int),
      (l.foldl (fun acc d => some (acc.elim d (min · d))) (some m)) =
        some (l.foldl min m) := by
    intro l
    induction l with
    | nil => intro m; rfl
    | cons e tail ih => intro m; simp only [List.foldl_cons, Option.elim]; exact ih _
  exact this rest d

/-- Claim C4: a child's stored depth after a sequence of discovery submissions
is the minimum depth at which it was ever discovered, and the result is
independent of the order in which the submissions were processed. -/
theorem discovered_child_depth_is_min_and_order_independent
    (cid : Nat) (d : Int) (rest ds₂ : List Int)
    (h : (d :: rest).Perm ds₂) :
    childDepthAfter cid (d :: rest) = some (rest.foldl min d) ∧
      childDepthAfter cid ds₂ = childDepthAfter cid (d :: rest) := by
  constructor
  · rw [childDepthAfter_min, minDepth_cons]
  · rw [childDepthAfter_min, childDepthAfter_min, minDepth_perm h.symm]

/-- Witness for C4: discovering account 42 first from a depth-2 parent (stored
depth 3) and then from a depth-0 parent (stored depth 1) leaves it at depth 1,
in either order. -/
theorem discovered_child_depth_witness :
    childDepthAfter 42 [3, 1] = some 1 ∧
      childDepthAfter 42 [1, 3] = childDepthAfter 42 [3, 1] := by
  have h := discovered_child_depth_is_min_and_order_independent 42 3 [1] [1, 3]
    (by decide)
  refine ⟨?_, h.2⟩
  rw [h.1]; decide

/-- Claim C3: with the default 10-minute timeout, a reclaim pass clears the
claim of every account whose `assigned_at` is older than `now - 600`, leaves
an account claimed more recently untouched, and never modifies `hero_done`,
`discover_done`, `hero_refreshed_at` or `full_write_done` of any account. -/
theorem reclaim_releases_exactly_stale_claims
    (now t : Int) (players : List Player) (p : Player) :
    release_incomplete_assignments now 600 players =
        players.map (releaseAssignment now 600) ∧
      (p.assigned_at = some t → t < now - 600 → p.assigned_to.isSome = true →
        (releaseAssignment now 600 p).assigned_to = none ∧
          (releaseAssignment now 600 p).assigned_at = none) ∧
      (p.assigned_at = some t → now - 600 < t → releaseAssignment now 600 p = p) ∧
      (releaseAssignment now 600 p).hero_done = p.hero_done ∧
      (releaseAssignment now 600 p).discover_done = p.discover_done ∧
      (releaseAssignment now 600 p).hero_refreshed_at = p.hero_refreshed_at ∧
      (releaseAssignment now 600 p).full_write_done = p.full_write_done := by
  refine ⟨rfl, ?_, ?_, ?_, ?_, ?_, ?_⟩
  · intro hat hold hsome
    have hstale : staleAssignment now 600 p = true := by
      simp [staleAssignment, hsome, hat]
      omega
    simp [releaseAssignment, hstale]
  · intro hat hfresh
    have hstale : staleAssignment now 600 p = false := by
      simp [staleAssignment, hat]
      intro _
      omega
    simp [releaseAssignment, hstale]
  all_goals
    unfold releaseAssignment
    split <;> rfl

/-- Witness for C3 at a concrete store: `now = 10000`; account 1 was claimed
at `t = 9000` (1000 seconds ago, past the 600-second cutoff) and is released;
its completion flags survive. -/
theorem reclaim_releases_exactly_stale_claims_witness :
    (releaseAssignment 10000 600
        (Player.mk 1 0 (some Assignee.hero) (some 9000) (some 42) true none
          true false 3)).assigned_to = none ∧
      (releaseAssignment 10000 600
        (Player.mk 1 0 (some Assignee.hero) (some 9000) (some 42) true none
          true false 3)).assigned_at = none :=
  (reclaim_releases_exactly_stale_claims 10000 9000 []
      (Player.mk 1 0 (some Assignee.hero) (some 9000) (some 42) true none
        true false 3)).2.1 rfl (by decide) (by decide)

theorem mergeHeroStat_key (s i : HeroStat) :
    (mergeHeroStat s i).steamAccountId = s.steamAccountId ∧
      (mergeHeroStat s i).heroId = s.heroId := by
  unfold mergeHeroStat
  split <;> exact ⟨rfl, rfl⟩

theorem find?_upsert_map (row : HeroStat) (tbl : List HeroStat)
    (stored : HeroStat)
    (h : tbl.find? (fun t => sameStatKey t row) = some stored) :
    (tbl.map (fun t => if sameStatKey t row then mergeHeroStat t row else t)).find?
        (fun t => sameStatKey t row) = some (mergeHeroStat stored row) := by
  induction tbl with
  | nil => simp at h
  | cons t rest ih =>
    by_cases hk : sameStatKey t row = true
    · rw [List.find?_cons_of_pos (p := fun x => sameStatKey x row) rest hk] at h
      have ht : t = stored := by injection h
      subst ht
      have hk' : sameStatKey (mergeHeroStat t row) row = true := by
        unfold sameStatKey at hk ⊢
        rw [(mergeHeroStat_key t row).1, (mergeHeroStat_key t row).2]
        exact hk
      simp only [List.map_cons, if_pos hk]
      exact List.find?_cons_of_pos _ hk'
    · rw [List.find?_cons_of_neg (p := fun x => sameStatKey x row) rest hk] at h
      simp only [List.map_cons, if_neg hk]
      rw [List.find?_cons_of_neg (p := fun x => sameStatKey x row) _ hk]
      exact ih h

theorem find?_upsert_map_other (row : HeroStat) (tbl : List HeroStat)
    (p : HeroStat → Bool)
    (hkey : ∀ t : HeroStat, sameStatKey t row = true → p t = false) :
    (tbl.map (fun t => if sameStatKey t row then mergeHeroStat t row else t)).find?
        p = tbl.find? p := by
  induction tbl with
  | nil => rfl
  | cons t rest ih =>
    by_cases hk : sameStatKey t row = true
    · have hp : p t = false := hkey t hk
      have hp' :
          p (if sameStatKey t row then mergeHeroStat t row else t) = false := by
        rw [if_pos hk]
        have : sameStatKey (mergeHeroStat t row) row = true := by
          unfold sameStatKey at hk ⊢
          rw [(mergeHeroStat_key t row).1, (mergeHeroStat_key t row).2]
          exact hk
        exact hkey _ this
      simp only [List.map_cons]
      rw [List.find?_cons_of_neg _ (by simp [hp']),
        List.find?_cons_of_neg _ (by simp [hp])]
      exact ih
    · simp only [List.map_cons, if_neg hk]
      cases hpt : p t with
      | true =>
        rw [List.find?_cons_of_pos _ hpt, List.find?_cons_of_pos _ hpt]
      | false =>
        rw [List.find?_cons_of_neg _ (by simp [hpt]),
          List.find?_cons_of_neg _ (by simp [hpt])]
        exact ih

/-- Claim C5 as stated is false: a resubmission with an equal `matches` value
but different `wins` does not overwrite. With stored `(matches, wins) = (5, 2)`
for pair `(1, 1)`, an incoming `(5, 3)` row (whose `matches` is ≥ the stored
value) leaves the stored row at `(5, 2)`, while the claim's non-strict merge
rule would produce `(5, 3)`. -/
theorem hero_merge_rule_counterexample :
    findStat (upsertHeroStats [HeroStat.mk 1 1 5 2] [HeroStat.mk 1 1 5 3]) 1 1 =
        some (HeroStat.mk 1 1 5 2) ∧
      mergeHeroStatSpec (HeroStat.mk 1 1 5 2) (HeroStat.mk 1 1 5 3) =
        HeroStat.mk 1 1 5 3 ∧
      HeroStat.mk 1 1 5 2 ≠ HeroStat.mk 1 1 5 3 := by decide

/-- Claim C5 amended: the hero-stat upsert follows the keep-larger merge rule
with a **strict** comparison. For a pair with an existing stored row, an
incoming row overwrites the stored `(matches, wins)` if and only if its
`matches` value is strictly greater than the stored one; otherwise (including
equality) the stored values are kept, and rows of every other
`(account, hero)` pair are untouched. -/
theorem hero_merge_rule_strict (tbl : List HeroStat) (row stored : HeroStat)
    (hkey : findStat tbl row.steamAccountId row.heroId = some stored) :
    findStat (upsertHeroStatRow tbl row) row.steamAccountId row.heroId =
        some
          (if row.matchesCount > stored.matchesCount then
            { stored with matchesCount := row.matchesCount, wins := row.wins }
          else stored) ∧
      ∀ sid hid : Nat, ¬(sid = row.steamAccountId ∧ hid = row.heroId) →
        findStat (upsertHeroStatRow tbl row) sid hid = findStat tbl sid hid := by
  have hfind : tbl.find? (fun t => sameStatKey t row) = some stored := by
    unfold findStat at hkey
    unfold sameStatKey
    exact hkey
  have hmem : stored ∈ tbl := List.mem_of_find?_eq_some hfind
  have hsk := List.find?_some hfind
  have hany : tbl.any (fun t => sameStatKey t row) = true :=
    List.any_eq_true.mpr ⟨stored, hmem, hsk⟩
  constructor
  · unfold upsertHeroStatRow
    rw [if_pos hany]
    unfold findStat
    have := find?_upsert_map row tbl stored hfind
    unfold sameStatKey at this ⊢
    rw [this]
    unfold mergeHeroStat
    rfl
  · intro sid hid hne
    unfold upsertHeroStatRow
    rw [if_pos hany]
    unfold findStat
    apply find?_upsert_map_other
    intro t hsk'
    unfold sameStatKey at hsk'
    have h1 : t.steamAccountId = row.steamAccountId := by
      have := (Bool.and_eq_true _ _).mp hsk'
      exact eq_of_beq this.1
    have h2 : t.heroId = row.heroId := by
      have := (Bool.and_eq_true _ _).mp hsk'
      exact eq_of_beq this.2
    by_cases hs : t.steamAccountId = sid
    · by_cases hh : t.heroId = hid
      · exact absurd ⟨by omega, by omega⟩ hne
      · simp [hh]
    · simp [hs]

/-- Witness for C5 amended: stored `(5, 2)`, incoming `(7, 6)` for pair
`(1, 1)` overwrites to `(7, 6)`, and pair `(2, 1)` is untouched. -/
theorem hero_merge_rule_strict_witness :
    findStat (upsertHeroStatRow [HeroStat.mk 1 1 5 2, HeroStat.mk 2 1 9 9]
          (HeroStat.mk 1 1 7 6)) 1 1 = some (HeroStat.mk 1 1 7 6) ∧
      findStat (upsertHeroStatRow [HeroStat.mk 1 1 5 2, HeroStat.mk 2 1 9 9]
          (HeroStat.mk 1 1 7 6)) 2 1 =
        findStat [HeroStat.mk 1 1 5 2, HeroStat.mk 2 1 9 9] 2 1 := by
  have h := hero_merge_rule_strict [HeroStat.mk 1 1 5 2, HeroStat.mk 2 1 9 9]
    (HeroStat.mk 1 1 7 6) (HeroStat.mk 1 1 5 2) (by decide)
  refine ⟨?_, h.2 2 1 (by decide)⟩
  have h1 := h.1
  rw [if_pos (by decide)] at h1
  exact h1

/-- Claim C6 as stated is false: the restart neither resets `seen_count` nor
changes any account's depth. A store with a single non-root account at depth 3
with `seen_count = 7` keeps both values across the restart, refuting the
universally quantified reset claim. -/
theorem discovery_restart_counterexample :
    (restartDiscoveryCycle
          [Player.mk 5 3 none none none true none true false 7]).map
        Player.seen_count = [7] ∧
      (restartDiscoveryCycle
            [Player.mk 5 3 none none none true none true false 7]).map
          Player.depth = [3] ∧
      ¬(∀ players : List Player, ∀ q ∈ restartDiscoveryCycle players,
          q.seen_count = 0) := by
  refine ⟨by decide, by decide, fun h => ?_⟩
  exact absurd
    (h [Player.mk 5 3 none none none true none true false 7]
      (Player.mk 5 3 none none none true none false false 7) (by decide))
    (by decide)

/-- Claim C6 amended: when a discovery-due call finds no claimable candidate,
the restart clears `discover_done` and `full_write_done` for every account and
releases outstanding `'discover'` claims, leaving other claims, `seen_count`,
`depth` and all remaining columns untouched; the loop then moves on with the
counter advanced rather than re-running the discovery claim immediately. -/
theorem discovery_restart_effect (players : List Player) (p : Player) :
    restartDiscoveryCycle players = players.map restartPlayerRow ∧
      (restartPlayerRow p).discover_done = false ∧
      (restartPlayerRow p).full_write_done = false ∧
      (p.assigned_to = some Assignee.discover →
        (restartPlayerRow p).assigned_to = none ∧
          (restartPlayerRow p).assigned_at = none) ∧
      (p.assigned_to ≠ some Assignee.discover →
        (restartPlayerRow p).assigned_to = p.assigned_to ∧
          (restartPlayerRow p).assigned_at = p.assigned_at) ∧
      (restartPlayerRow p).seen_count = p.seen_count ∧
      (restartPlayerRow p).depth = p.depth ∧
      (restartPlayerRow p).hero_done = p.hero_done ∧
      (restartPlayerRow p).hero_refreshed_at = p.hero_refreshed_at ∧
      (restartPlayerRow p).highest_match_id = p.highest_match_id ∧
      (restartPlayerRow p).steamAccountId = p.steamAccountId := by
  refine ⟨rfl, rfl, rfl, ?_, ?_, rfl, rfl, rfl, rfl, rfl, rfl⟩
  · intro h
    unfold restartPlayerRow
    rw [if_pos h, if_pos h]
    exact ⟨rfl, rfl⟩
  · intro h
    unfold restartPlayerRow
    rw [if_neg h, if_neg h]
    exact ⟨rfl, rfl⟩

/-- Witness for C6 amended: a root account claimed by `'discover'` has its
claim released, and its `hero` flags survive. -/
theorem discovery_restart_effect_witness :
    (restartPlayerRow
          (Player.mk 293053907 0 (some Assignee.discover) (some 50) none true
            none true true 0)).assigned_to = none ∧
      (restartPlayerRow
          (Player.mk 293053907 0 (some Assignee.discover) (some 50) none true
            none true true 0)).assigned_at = none :=
  (discovery_restart_effect []
      (Player.mk 293053907 0 (some Assignee.discover) (some 50) none true none
        true true 0)).2.2.2.1 rfl

/-- Claim C10: when more than 100 accounts have `discover_done=TRUE`,
`full_write_done=FALSE` and a non-null `highest_match_id`, `_assign_discovery`
returns the throttle sentinel without touching the store, and a discovery-due
loop iteration merely advances the counter (continues) without handing out
any task. -/
theorem discovery_backlog_throttles_assignment (now : Int) (s : Sched)
    (n : Nat) (h : backlogCount s.players > 100) :
    assignDiscovery now s.players = (s.players, DiscResult.throttled) ∧
      (n % 199 = 0 → loopIterate now s n = IterOut.next s) := by
  have hb : discoveryBacklogExceeded s.players = true := by
    unfold discoveryBacklogExceeded
    exact decide_eq_true h
  have ha : assignDiscovery now s.players = (s.players, DiscResult.throttled) := by
    unfold assignDiscovery assignDiscoveryAux
    rw [if_pos hb]
  refine ⟨ha, fun hn => ?_⟩
  have hdue : (n % 199 == 0) = true := by simp [hn]
  unfold loopIterate
  rw [hdue]
  simp only [if_true, ha]

set_option maxRecDepth 8000 in
/-- Witness for C10: a store of 101 backlogged accounts is throttled. -/
theorem discovery_backlog_throttles_assignment_witness :
    assignDiscovery 0
        ((List.range 101).map fun i =>
          Player.mk (i + 1) 0 none none none false (some 1) true false 0) =
      ((List.range 101).map fun i =>
          Player.mk (i + 1) 0 none none none false (some 1) true false 0,
        DiscResult.throttled) :=
  (discovery_backlog_throttles_assignment 0
      (Sched.mk
        ((List.range 101).map fun i =>
          Player.mk (i + 1) 0 none none none false (some 1) true false 0)
        0 0)
      199 (by decide)).1

/-- Claim C1 as stated is false at the level of whole task-assignment calls.
Store: the single account 7 with hero stats complete, discovery pending,
unclaimed; counter 198. Two concurrent calls both read counter 198; the first
runs to completion and claims account 7 for `discover_matches`. The second
(resuming after its stale counter read) hits the discovery-due boundary,
finds no unclaimed candidate, **restarts the discovery cycle** — releasing
the first caller's in-flight claim — and on its next iteration hands account
7 out again. Both callers receive account 7. -/
theorem claim_mutual_exclusion_counterexample :
    loopGo 0 5
        (Sched.mk [Player.mk 7 0 none none none true none false false 0] 0 198)
        198 =
      some (some (Task.discover_matches [7]),
        Sched.mk
          [Player.mk 7 0 (some Assignee.discover) (some 0) none true none
            false false 0] 0 199) ∧
      loopGo 0 15
          (Sched.mk
            [Player.mk 7 0 (some Assignee.discover) (some 0) none true none
              false false 0] 0 199)
          198 =
        some (some (Task.discover_matches [7]),
          Sched.mk
            [Player.mk 7 0 (some Assignee.discover) (some 0) none true none
              false false 0] 0 200) := by
  exact ⟨by decide, by decide⟩

theorem allClaimed_map (a : Nat) (l : List Player) (f : Player → Player)
    (hid : ∀ p, (f p).steamAccountId = p.steamAccountId)
    (has : ∀ p, p.assigned_to ≠ none → (f p).assigned_to ≠ none)
    (h : allClaimed a l) : allClaimed a (l.map f) := by
  intro q hq hqa
  obtain ⟨p, hp, rfl⟩ := List.mem_map.mp hq
  exact has p (h p hp (by rw [← hid p]; exact hqa))

theorem allClaimed_claimDiscoveryRows (a : Nat) (now : Int) (ids : List Nat)
    (l : List Player) (h : allClaimed a l) :
    allClaimed a (claimDiscoveryRows now ids l) := by
  unfold claimDiscoveryRows
  refine allClaimed_map a l _ ?_ ?_ h
  · intro p
    dsimp only
    split <;> rfl
  · intro p hp
    dsimp only
    split
    · simp
    · exact hp

theorem allClaimed_claimHeroRows (a : Nat) (now : Int) (ids : List Nat)
    (l : List Player) (h : allClaimed a l) :
    allClaimed a (claimHeroRows now ids l) := by
  unfold claimHeroRows
  refine allClaimed_map a l _ ?_ ?_ h
  · intro p
    dsimp only
    split <;> rfl
  · intro p hp
    dsimp only
    split
    · simp
    · exact hp

theorem allClaimed_markAccountZeroDone (a : Nat) (l : List Player)
    (h : allClaimed a l) : allClaimed a (markAccountZeroDone l) := by
  unfold markAccountZeroDone
  refine allClaimed_map a l _ ?_ ?_ h
  · intro p
    dsimp only
    split <;> rfl
  · intro p hp
    dsimp only
    split <;> exact hp

theorem allClaimed_discPostClaim (a : Nat) (now : Int) (l : List Player)
    (h : allClaimed a l) : allClaimed a (discPostClaim now l) := by
  unfold discPostClaim
  split
  · exact allClaimed_markAccountZeroDone a _
      (allClaimed_claimDiscoveryRows a now _ l h)
  · exact allClaimed_claimDiscoveryRows a now _ l h

theorem allClaimed_claimDiscoveryRows_of_contains (a : Nat) (now : Int)
    (ids : List Nat) (l : List Player) (hc : ids.contains a = true) :
    allClaimed a (claimDiscoveryRows now ids l) := by
  intro q hq hqa
  unfold claimDiscoveryRows at hq
  obtain ⟨p, hp, rfl⟩ := List.mem_map.mp hq
  by_cases hcond : (ids.contains p.steamAccountId && p.assigned_to.isNone) = true
  · rw [if_pos hcond] at hqa ⊢
    simp
  · rw [if_neg hcond] at hqa ⊢
    have hpa : p.steamAccountId = a := hqa
    intro habs
    apply hcond
    rw [hpa, hc, habs]
    rfl

theorem mem_sortedIds (a : Nat) (l : List Nat) : a ∈ sortedIds l ↔ a ∈ l := by
  unfold sortedIds
  rw [(List.perm_insertionSort _ _).mem_iff, List.mem_dedup]

theorem mem_discEntries_unclaimed {p : Player} {l : List Player}
    (hp : p ∈ discEntries l) :
    p ∈ l ∧ (discCandIds l).contains p.steamAccountId = true ∧
      p.assigned_to = none := by
  unfold discEntries at hp
  have hret := (List.mem_filter.mp hp).1
  unfold discReturned at hret
  obtain ⟨hmem, hcond⟩ := List.mem_filter.mp hret
  rw [Bool.and_eq_true] at hcond
  exact ⟨hmem, hcond.1, Option.isNone_iff_eq_none.mp hcond.2⟩

theorem not_mem_discTaskAux_of_allClaimed (now : Int) (fuel : Nat)
    (l : List Player) (a : Nat) (h : allClaimed a l) :
    a ∉ discTaskIds (assignDiscoveryAux now fuel l).2 := by
  induction fuel generalizing l with
  | zero => simp [assignDiscoveryAux, discTaskIds]
  | succ fuel ih =>
    unfold assignDiscoveryAux
    split
    · simp [discTaskIds]
    · split
      · simp [discTaskIds]
      · split
        · exact ih (discPostClaim now l) (allClaimed_discPostClaim a now l h)
        · intro hmem
          simp only [discTaskIds] at hmem
          obtain ⟨p, hpmem, hpa⟩ := List.mem_map.mp hmem
          have hpe : p ∈ discEntries l :=
            (List.perm_insertionSort discLe (discEntries l)).subset hpmem
          obtain ⟨hpl, _, hnone⟩ := mem_discEntries_unclaimed hpe
          exact h p hpl hpa hnone

theorem allClaimed_of_mem_discTaskAux (now : Int) (fuel : Nat)
    (l : List Player) (a : Nat)
    (hmem : a ∈ discTaskIds (assignDiscoveryAux now fuel l).2) :
    allClaimed a (assignDiscoveryAux now fuel l).1 := by
  induction fuel generalizing l with
  | zero => simp [assignDiscoveryAux, discTaskIds] at hmem
  | succ fuel ih =>
    unfold assignDiscoveryAux at hmem ⊢
    split at hmem
    · simp [discTaskIds] at hmem
    · rename_i hthrottle
      rw [if_neg hthrottle]
      split at hmem
      · simp [discTaskIds] at hmem
      · rename_i hret
        rw [if_neg hret]
        split at hmem
        · rename_i hent
          rw [if_pos hent]
          exact ih (discPostClaim now l) hmem
        · rename_i hent
          rw [if_neg hent]
          simp only [discTaskIds] at hmem
          obtain ⟨p, hpmem, hpa⟩ := List.mem_map.mp hmem
          have hpe : p ∈ discEntries l :=
            (List.perm_insertionSort discLe (discEntries l)).subset hpmem
          obtain ⟨_, hcontp, _⟩ := mem_discEntries_unclaimed hpe
          rw [hpa] at hcontp
          have hbase :=
            allClaimed_claimDiscoveryRows_of_contains a now (discCandIds l) l
              hcontp
          unfold discPostClaim
          split
          · exact allClaimed_markAccountZeroDone a _ hbase
          · exact hbase

theorem map_id_claimHeroRows (now : Int) (ids : List Nat) (l : List Player) :
    (claimHeroRows now ids l).map Player.steamAccountId =
      l.map Player.steamAccountId := by
  unfold claimHeroRows
  rw [List.map_map]
  apply List.map_congr_left
  intro p _
  dsimp only [Function.comp]
  split <;> rfl

theorem not_mem_heroClaimedIds_of_allClaimed (s : Sched) (a : Nat)
    (h : allClaimed a s.players) : a ∉ heroClaimedIds s := by
  intro hmem
  unfold heroClaimedIds at hmem
  rw [mem_sortedIds] at hmem
  obtain ⟨p, hpf, hpa⟩ := List.mem_map.mp hmem
  obtain ⟨hpl, hcond⟩ := List.mem_filter.mp hpf
  rw [Bool.and_eq_true, Bool.and_eq_true] at hcond
  exact h p hpl hpa (Option.isNone_iff_eq_none.mp hcond.2)

theorem allClaimed_of_mem_heroClaimedIds (now : Int) (s : Sched) (a : Nat)
    (hnd : (s.players.map Player.steamAccountId).Nodup)
    (hmem : a ∈ heroClaimedIds s) :
    allClaimed a (claimHeroRows now (heroSelectedIds s) s.players) := by
  unfold heroClaimedIds at hmem
  rw [mem_sortedIds] at hmem
  obtain ⟨p, hpf, hpa⟩ := List.mem_map.mp hmem
  obtain ⟨hpl, hcond⟩ := List.mem_filter.mp hpf
  intro q hq hqa
  unfold claimHeroRows at hq
  obtain ⟨r, hr, rfl⟩ := List.mem_map.mp hq
  have hrid : r.steamAccountId = a := by
    revert hqa
    split <;> (intro hqa; exact hqa)
  have hrp : r = p :=
    List.inj_on_of_nodup_map hnd hr hpl (by rw [hrid, hpa])
  subst hrp
  rw [if_pos hcond]
  simp

theorem assignNextHeroAttempt_players (now : Int) (s : Sched) :
    ((assignNextHeroAttempt now s).1).players =
      claimHeroRows now (heroSelectedIds s) s.players := by
  unfold assignNextHeroAttempt
  split <;> rfl

theorem assignNextHeroAttempt_ids_subset (now : Int) (s : Sched) (a : Nat)
    (h : a ∈ (assignNextHeroAttempt now s).2) : a ∈ heroClaimedIds s := by
  unfold assignNextHeroAttempt at h
  revert h
  split
  · intro h
    simp at h
  · intro h
    exact h

theorem allClaimed_heroAttempt (now : Int) (s : Sched) (a : Nat)
    (h : allClaimed a s.players) :
    allClaimed a ((assignNextHeroAttempt now s).1).players := by
  rw [assignNextHeroAttempt_players]
  exact allClaimed_claimHeroRows a now _ _ h

theorem allClaimed_heroAttempt_of_mem (now : Int) (s : Sched) (a : Nat)
    (hnd : (s.players.map Player.steamAccountId).Nodup)
    (hmem : a ∈ (assignNextHeroAttempt now s).2) :
    allClaimed a ((assignNextHeroAttempt now s).1).players := by
  rw [assignNextHeroAttempt_players]
  exact allClaimed_of_mem_heroClaimedIds now s a hnd
    (assignNextHeroAttempt_ids_subset now s a hmem)

theorem nodup_heroAttempt (now : Int) (s : Sched)
    (hnd : (s.players.map Player.steamAccountId).Nodup) :
    (((assignNextHeroAttempt now s).1).players.map Player.steamAccountId).Nodup := by
  rw [assignNextHeroAttempt_players, map_id_claimHeroRows]
  exact hnd

theorem not_mem_heroTask_of_allClaimed (now : Int) (s : Sched) (a : Nat)
    (h : allClaimed a s.players) :
    a ∉ heroTaskIds (assignNextHero now s).2 := by
  unfold assignNextHero
  split
  · next s₁ heq₁ =>
    have h₁' : allClaimed a s₁.players := by
      have := allClaimed_heroAttempt now s a h
      rw [heq₁] at this
      exact this
    split
    · simp [heroTaskIds]
    · next s₂ b bs heq₂ =>
      intro hmem
      simp only [heroTaskIds] at hmem
      have hsub := assignNextHeroAttempt_ids_subset now s₁ a
        (by rw [heq₂]; exact hmem)
      exact not_mem_heroClaimedIds_of_allClaimed s₁ a h₁' hsub
  · next s₁ b bs heq₁ =>
    intro hmem
    simp only [heroTaskIds] at hmem
    have hsub := assignNextHeroAttempt_ids_subset now s a
      (by rw [heq₁]; exact hmem)
    exact not_mem_heroClaimedIds_of_allClaimed s a h hsub

theorem allClaimed_of_mem_heroTask (now : Int) (s : Sched) (a : Nat)
    (hnd : (s.players.map Player.steamAccountId).Nodup)
    (hmem : a ∈ heroTaskIds (assignNextHero now s).2) :
    allClaimed a ((assignNextHero now s).1).players := by
  unfold assignNextHero at hmem ⊢
  split at hmem
  · next s₁ heq₁ =>
    have hnd₁ : (s₁.players.map Player.steamAccountId).Nodup := by
      have := nodup_heroAttempt now s hnd
      rw [heq₁] at this
      exact this
    split at hmem
    · simp [heroTaskIds] at hmem
    · next s₂ b bs heq₂ =>
      simp only [heroTaskIds] at hmem
      have := allClaimed_heroAttempt_of_mem now s₁ a hnd₁
        (by rw [heq₂]; exact hmem)
      rw [heq₂] at this
      exact this
  · next s₁ b bs heq₁ =>
    simp only [heroTaskIds] at hmem
    have := allClaimed_heroAttempt_of_mem now s a hnd (by rw [heq₁]; exact hmem)
    rw [heq₁] at this
    exact this

theorem not_mem_discTask_of_allClaimed (now : Int) (l : List Player) (a : Nat)
    (h : allClaimed a l) : a ∉ discTaskIds (assignDiscovery now l).2 :=
  not_mem_discTaskAux_of_allClaimed now (l.length + 1) l a h

theorem allClaimed_of_mem_discTask (now : Int) (l : List Player) (a : Nat)
    (hmem : a ∈ discTaskIds (assignDiscovery now l).2) :
    allClaimed a (assignDiscovery now l).1 :=
  allClaimed_of_mem_discTaskAux now (l.length + 1) l a hmem

/-- Claim C1 amended: the individual claim UPDATEs are mutually exclusive.
Run sequentially in any combination (the serialization of two concurrent
atomic conditional updates), `_assign_discovery` and `_assign_next_hero`
never hand the same account id to both calls: each claim succeeds only where
`assigned_to` is still NULL and leaves every row of a returned account
claimed. At the level of whole `RequestTask` calls, however, mutual exclusion
can fail when a discovery-cycle restart runs between the two claims
(see the counterexample), because the restart releases in-flight `'discover'`
claims. -/
theorem claim_updates_mutually_exclusive (now₁ now₂ : Int) (s : Sched)
    (hnd : (s.players.map Player.steamAccountId).Nodup) :
    (∀ a, a ∈ discTaskIds (assignDiscovery now₁ s.players).2 →
      a ∉ discTaskIds
          (assignDiscovery now₂ (assignDiscovery now₁ s.players).1).2) ∧
      (∀ a, a ∈ discTaskIds (assignDiscovery now₁ s.players).2 →
        a ∉ heroTaskIds
            (assignNextHero now₂
              { s with players := (assignDiscovery now₁ s.players).1 }).2) ∧
      (∀ a, a ∈ heroTaskIds (assignNextHero now₁ s).2 →
        a ∉ heroTaskIds (assignNextHero now₂ (assignNextHero now₁ s).1).2) ∧
      (∀ a, a ∈ heroTaskIds (assignNextHero now₁ s).2 →
        a ∉ discTaskIds
            (assignDiscovery now₂ ((assignNextHero now₁ s).1).players).2) := by
  refine ⟨?_, ?_, ?_, ?_⟩
  · intro a ha
    exact not_mem_discTask_of_allClaimed now₂ _ a
      (allClaimed_of_mem_discTask now₁ s.players a ha)
  · intro a ha
    exact not_mem_heroTask_of_allClaimed now₂ _ a
      (allClaimed_of_mem_discTask now₁ s.players a ha)
  · intro a ha
    exact not_mem_heroTask_of_allClaimed now₂ _ a
      (allClaimed_of_mem_heroTask now₁ s a hnd ha)
  · intro a ha
    exact not_mem_discTask_of_allClaimed now₂ _ a
      (allClaimed_of_mem_heroTask now₁ s a hnd ha)

/-- Witness for C1 amended, at a store holding one discovery candidate and
one hero candidate: the discovery claim hands out account 7, and the hero
claim run next cannot hand out 7 again. -/
theorem claim_updates_mutually_exclusive_witness :
    discTaskIds
        (assignDiscovery 0
          [Player.mk 7 0 none none none true none false false 0,
            Player.mk 9 1 none none none false none false false 0]).2 =
      [7] ∧
      7 ∉ heroTaskIds
          (assignNextHero 0
            (Sched.mk
              (assignDiscovery 0
                  [Player.mk 7 0 none none none true none false false 0,
                    Player.mk 9 1 none none none false none false false 0]).1
              0 0)).2 := by
  constructor
  · decide
  · exact (claim_updates_mutually_exclusive 0 0
      (Sched.mk
        [Player.mk 7 0 none none none true none false false 0,
          Player.mk 9 1 none none none false none false false 0]
        0 0)
      (by decide)).2.1 7 (by decide)

/-! ## Refresh-due claims (claim C8) -/
theorem contains_iff (l : List Nat) (a : Nat) :
    l.contains a = true ↔ a ∈ l :=
  List.elem_iff

/-- Claim C8 as stated is false: the refresh-due branch claims a batch of up
to `MAX_HERO_TASK_SIZE = 5` accounts, not only the single account with the
oldest `hero_refreshed_at`. With two refreshable accounts (account 1 refreshed
at 100, account 2 at 200) both are claimed, not just account 1. -/
theorem refresh_claims_batch_counterexample :
    (claimRefresh 0
        [Player.mk 1 0 none none (some 100) true none true false 0,
          Player.mk 2 0 none none (some 200) true none true false 0]).2 =
      [1, 2] ∧
      (claimRefresh 0
          [Player.mk 1 0 none none (some 100) true none true false 0,
            Player.mk 2 0 none none (some 200) true none true false 0]).2 ≠
        [1] ∧
      ((claimRefresh 0
          [Player.mk 1 0 none none (some 100) true none true false 0,
            Player.mk 2 0 none none (some 200) true none true false 0]).1).map
          Player.assigned_to =
        [some Assignee.hero, some Assignee.hero] := by decide

theorem mem_refreshReturnedIds (players : List Player) (a : Nat) :
    a ∈ refreshReturnedIds players ↔ a ∈ refreshCandIds players := by
  constructor
  · intro h
    unfold refreshReturnedIds at h
    obtain ⟨p, hp, hpa⟩ := List.mem_map.mp h
    obtain ⟨_, hcond⟩ := List.mem_filter.mp hp
    rw [Bool.and_eq_true, Bool.and_eq_true] at hcond
    rw [← hpa]
    exact (contains_iff _ _).mp hcond.1.1
  · intro h
    unfold refreshCandIds at h
    obtain ⟨q, hq, hqa⟩ := List.mem_map.mp h
    have hqS : q ∈ List.insertionSort refreshLe (players.filter refreshEligible) :=
      (List.take_sublist _ _).subset hq
    have hqf : q ∈ players.filter refreshEligible :=
      (List.perm_insertionSort refreshLe _).subset hqS
    obtain ⟨hqp, hqe⟩ := List.mem_filter.mp hqf
    rw [refreshEligible, Bool.and_eq_true] at hqe
    unfold refreshReturnedIds
    rw [← hqa]
    apply List.mem_map_of_mem
    rw [List.mem_filter]
    refine ⟨hqp, ?_⟩
    rw [Bool.and_eq_true, Bool.and_eq_true]
    exact ⟨⟨(contains_iff _ _).mpr (by rw [hqa]; exact h), hqe.1⟩, hqe.2⟩

theorem refreshReturnedIds_nodup (players : List Player)
    (hnd : (players.map Player.steamAccountId).Nodup) :
    (refreshReturnedIds players).Nodup := by
  unfold refreshReturnedIds
  exact ((List.filter_sublist players).map Player.steamAccountId).nodup hnd

theorem refreshCandIds_length (players : List Player) :
    (refreshCandIds players).length ≤ 5 := by
  unfold refreshCandIds
  rw [List.length_map, List.length_take]
  exact min_le_left _ _

theorem refreshLe_antisymm_ids {p q : Player} (h₁ : refreshLe p q)
    (h₂ : refreshLe q p) : p.steamAccountId = q.steamAccountId := by
  unfold refreshLe at h₁ h₂
  omega

theorem refresh_claimed_precedes (players : List Player)
    (hnd : (players.map Player.steamAccountId).Nodup) (p q : Player)
    (hp : p ∈ players) (hq : q ∈ players) (hep : refreshEligible p = true)
    (heq : refreshEligible q = true)
    (hpin : p.steamAccountId ∈ refreshReturnedIds players)
    (hqout : q.steamAccountId ∉ refreshReturnedIds players) :
    refreshLe p q := by
  have hpc : p.steamAccountId ∈ refreshCandIds players :=
    (mem_refreshReturnedIds players _).mp hpin
  have hqc : q.steamAccountId ∉ refreshCandIds players :=
    fun hc => hqout ((mem_refreshReturnedIds players _).mpr hc)
  set S := List.insertionSort refreshLe (players.filter refreshEligible)
    with hS
  have hsorted : List.Pairwise refreshLe S := List.sorted_insertionSort _ _
  have hqS : q ∈ S := by
    rw [hS, (List.perm_insertionSort refreshLe _).mem_iff, List.mem_filter]
    exact ⟨hq, heq⟩
  have hqS' : q ∈ S.take 5 ++ S.drop 5 := by
    rw [List.take_append_drop 5 S]
    exact hqS
  have hqdrop : q ∈ S.drop 5 := by
    rcases List.mem_append.mp hqS' with hqt | hqd
    · exact absurd (List.mem_map_of_mem Player.steamAccountId hqt) hqc
    · exact hqd
  obtain ⟨p', hp', hp'a⟩ := List.mem_map.mp hpc
  have hp'p : p' = p := by
    have hp'S : p' ∈ S := (List.take_sublist _ _).subset hp'
    have hp'f : p' ∈ players.filter refreshEligible :=
      (List.perm_insertionSort refreshLe _).subset hp'S
    exact List.inj_on_of_nodup_map hnd (List.mem_filter.mp hp'f).1 hp hp'a
  have hpt : p ∈ S.take 5 := hp'p ▸ hp'
  have hpair := (List.pairwise_append.mp
    (by rw [List.take_append_drop 5 S]; exact hsorted)).2.2
  exact hpair p hpt q hqdrop

/-- Claim C8 amended: the refresh-due branch claims the **first
`min(5, k)`** unclaimed completed accounts in `(hero_refreshed_at ASC NULLS
FIRST, steamAccountId ASC)` order (`k` the number of eligible accounts): at
most 5 ids are claimed, the claimed id set is exactly the candidate set, any
claimed account precedes any unclaimed eligible one in that order — in
particular the account with the oldest `hero_refreshed_at` is claimed — and
each claimed account has `hero_done` flipped to FALSE with
`assigned_to='hero'` and `assigned_at` set, while unclaimed rows are kept
unchanged. -/
theorem refresh_claims_lru_batch (now : Int) (players : List Player)
    (hnd : (players.map Player.steamAccountId).Nodup) :
    (claimRefresh now players).2.length ≤ 5 ∧
      (∀ a, a ∈ (claimRefresh now players).2 ↔ a ∈ refreshCandIds players) ∧
      (∀ p q, p ∈ players → q ∈ players → refreshEligible p = true →
        refreshEligible q = true →
        p.steamAccountId ∈ (claimRefresh now players).2 →
        q.steamAccountId ∉ (claimRefresh now players).2 → refreshLe p q) ∧
      (∀ p, p ∈ players → refreshEligible p = true →
        (∀ q, q ∈ players → refreshEligible q = true → refreshLe p q) →
        p.steamAccountId ∈ (claimRefresh now players).2) ∧
      (∀ p, p ∈ players → refreshEligible p = true →
        p.steamAccountId ∈ (claimRefresh now players).2 →
        { p with
            hero_done := false
            assigned_to := some Assignee.hero
            assigned_at := some now } ∈ (claimRefresh now players).1) ∧
      (∀ p, p ∈ players → p.steamAccountId ∉ (claimRefresh now players).2 →
        p ∈ (claimRefresh now players).1) := by
  have hmem : ∀ a, a ∈ (claimRefresh now players).2 ↔
      a ∈ refreshCandIds players := fun a => mem_refreshReturnedIds players a
  refine ⟨?_, hmem, ?_, ?_, ?_, ?_⟩
  · have h1 : (claimRefresh now players).2.Nodup :=
      refreshReturnedIds_nodup players hnd
    have h2 : (claimRefresh now players).2 ⊆ refreshCandIds players :=
      fun a ha => (hmem a).mp ha
    exact le_trans (h1.subperm h2).length_le (refreshCandIds_length players)
  · intro p q hp hq hep heq hpin hqout
    exact refresh_claimed_precedes players hnd p q hp hq hep heq hpin hqout
  · intro p hp hep hmin
    by_contra hpo
    have hpf : p ∈ players.filter refreshEligible :=
      List.mem_filter.mpr ⟨hp, hep⟩
    have hpS : p ∈ List.insertionSort refreshLe (players.filter refreshEligible) := by
      rw [(List.perm_insertionSort refreshLe _).mem_iff]
      exact hpf
    obtain ⟨x, xs, hxs⟩ : ∃ x xs,
        List.insertionSort refreshLe (players.filter refreshEligible) =
          x :: xs := by
      cases hc : List.insertionSort refreshLe (players.filter refreshEligible) with
      | nil => rw [hc] at hpS; exact absurd hpS (List.not_mem_nil p)
      | cons x xs => exact ⟨x, xs, rfl⟩
    have hxc : x.steamAccountId ∈ refreshCandIds players := by
      unfold refreshCandIds
      rw [hxs]
      have htake : List.take MAX_TASK_SIZE (x :: xs) = x :: List.take 4 xs :=
        rfl
      rw [htake]
      exact List.mem_map_of_mem _ (List.mem_cons_self x _)
    have hxf := (List.perm_insertionSort refreshLe
        (players.filter refreshEligible)).subset
      (hxs ▸ List.mem_cons_self x xs)
    obtain ⟨hxp, hxe⟩ := List.mem_filter.mp hxf
    have hxin : x.steamAccountId ∈ refreshReturnedIds players :=
      (mem_refreshReturnedIds players _).mpr hxc
    have h₁ : refreshLe p x := hmin x hxp hxe
    have h₂ : refreshLe x p :=
      refresh_claimed_precedes players hnd x p hxp hp hxe hep hxin hpo
    have hid : x.steamAccountId = p.steamAccountId :=
      refreshLe_antisymm_ids h₂ h₁
    exact hpo (by rw [← hid]; exact hxin)
  · intro p hp hep hpin
    have hpc := (hmem _).mp hpin
    rw [refreshEligible, Bool.and_eq_true] at hep
    have hcond : ((refreshCandIds players).contains p.steamAccountId &&
        p.hero_done && p.assigned_to.isNone) = true := by
      rw [Bool.and_eq_true, Bool.and_eq_true]
      exact ⟨⟨(contains_iff _ _).mpr hpc, hep.1⟩, hep.2⟩
    show _ ∈ claimRefreshRows now (refreshCandIds players) players
    unfold claimRefreshRows
    apply List.mem_map.mpr
    refine ⟨p, hp, ?_⟩
    dsimp only
    rw [if_pos hcond]
  · intro p hp hpo
    have hcond : ¬(((refreshCandIds players).contains p.steamAccountId &&
        p.hero_done && p.assigned_to.isNone) = true) := by
      intro habs
      rw [Bool.and_eq_true, Bool.and_eq_true] at habs
      exact hpo ((hmem _).mpr ((contains_iff _ _).mp habs.1.1))
    show _ ∈ claimRefreshRows now (refreshCandIds players) players
    unfold claimRefreshRows
    apply List.mem_map.mpr
    refine ⟨p, hp, ?_⟩
    dsimp only
    rw [if_neg hcond]

/-- Witness for C8 amended: with accounts 1 (refreshed at 100) and 2
(refreshed at 200) both eligible, account 1 — the oldest — is claimed. -/
theorem refresh_claims_lru_batch_witness :
    1 ∈ (claimRefresh 0
        [Player.mk 1 0 none none (some 100) true none true false 0,
          Player.mk 2 0 none none (some 200) true none true false 0]).2 :=
  (refresh_claims_lru_batch 0
      [Player.mk 1 0 none none (some 100) true none true false 0,
        Player.mk 2 0 none none (some 200) true none true false 0]
      (by decide)).2.2.2.1
    (Player.mk 1 0 none none (some 100) true none true false 0)
    (by decide) (by decide)
    (by
      intro q hq heq
      simp only [List.mem_cons, List.mem_singleton] at hq
      rcases hq with h | h | h
      · subst h; decide
      · subst h; decide
      · exact absurd h (List.not_mem_nil q))

/-! ## Termination of the assignment loop (claim C7) -/
theorem backlogCount_claimDiscoveryRows (now : Int) (ids : List Nat)
    (l : List Player) :
    backlogCount (claimDiscoveryRows now ids l) = backlogCount l := by
  unfold backlogCount claimDiscoveryRows
  rw [List.countP_map]
  apply List.countP_congr
  intro p _
  dsimp only [Function.comp]
  split <;> exact Iff.rfl

theorem backlogCount_claimHeroRows (now : Int) (ids : List Nat)
    (l : List Player) :
    backlogCount (claimHeroRows now ids l) = backlogCount l := by
  unfold backlogCount claimHeroRows
  rw [List.countP_map]
  apply List.countP_congr
  intro p _
  dsimp only [Function.comp]
  split <;> exact Iff.rfl

theorem backlogCount_claimRefreshRows (now : Int) (ids : List Nat)
    (l : List Player) :
    backlogCount (claimRefreshRows now ids l) = backlogCount l := by
  unfold backlogCount claimRefreshRows
  rw [List.countP_map]
  apply List.countP_congr
  intro p _
  dsimp only [Function.comp]
  split <;> exact Iff.rfl

theorem backlogCount_markAccountZeroDone_le (l : List Player) :
    backlogCount (markAccountZeroDone l) ≤ backlogCount l := by
  unfold backlogCount markAccountZeroDone
  rw [List.countP_map]
  apply List.countP_mono_left
  intro p _ h
  dsimp only [Function.comp] at h
  revert h
  split
  · intro h
    simp [backlogRow] at h
  · intro h
    exact h

theorem backlogCount_restartDiscoveryCycle (l : List Player) :
    backlogCount (restartDiscoveryCycle l) = 0 := by
  unfold backlogCount restartDiscoveryCycle
  rw [List.countP_map, List.countP_eq_zero]
  intro p _
  dsimp only [Function.comp]
  simp [backlogRow, restartPlayerRow]

theorem backlogCount_discPostClaim_le (now : Int) (l : List Player) :
    backlogCount (discPostClaim now l) ≤ backlogCount l := by
  unfold discPostClaim
  split
  · exact le_trans (backlogCount_markAccountZeroDone_le _)
      (le_of_eq (backlogCount_claimDiscoveryRows now _ l))
  · exact le_of_eq (backlogCount_claimDiscoveryRows now _ l)

theorem backlogCount_assignDiscoveryAux_le (now : Int) (fuel : Nat)
    (l : List Player) :
    backlogCount (assignDiscoveryAux now fuel l).1 ≤ backlogCount l := by
  induction fuel generalizing l with
  | zero => exact le_refl _
  | succ fuel ih =>
    unfold assignDiscoveryAux
    split
    · exact le_refl _
    · split
      · exact le_of_eq (backlogCount_claimDiscoveryRows now _ l)
      · split
        · exact le_trans (ih _) (backlogCount_discPostClaim_le now l)
        · exact backlogCount_discPostClaim_le now l

theorem assignDiscoveryAux_not_throttled (now : Int) (fuel : Nat)
    (l : List Player) (hb : backlogCount l ≤ 100) :
    (assignDiscoveryAux now fuel l).2 ≠ DiscResult.throttled := by
  induction fuel generalizing l with
  | zero => simp [assignDiscoveryAux]
  | succ fuel ih =>
    unfold assignDiscoveryAux
    split
    · next hthrot =>
      exfalso
      unfold discoveryBacklogExceeded at hthrot
      have := of_decide_eq_true hthrot
      omega
    · split
      · simp
      · split
        · exact ih _ (le_trans (backlogCount_discPostClaim_le now l) hb)
        · simp

theorem backlogCount_heroAttempt (now : Int) (s : Sched) :
    backlogCount ((assignNextHeroAttempt now s).1).players =
      backlogCount s.players := by
  rw [assignNextHeroAttempt_players]
  exact backlogCount_claimHeroRows now _ s.players

theorem backlogCount_assignNextHero (now : Int) (s : Sched) :
    backlogCount ((assignNextHero now s).1).players =
      backlogCount s.players := by
  unfold assignNextHero
  split
  · next s₁ heq₁ =>
    have e₁ : backlogCount s₁.players = backlogCount s.players := by
      have := backlogCount_heroAttempt now s
      rw [heq₁] at this
      exact this
    split
    · next s₂ heq₂ =>
      have e₂ : backlogCount s₂.players = backlogCount s₁.players := by
        have := backlogCount_heroAttempt now s₁
        rw [heq₂] at this
        exact this
      exact e₂.trans e₁
    · next s₂ b bs heq₂ =>
      have e₂ : backlogCount s₂.players = backlogCount s₁.players := by
        have := backlogCount_heroAttempt now s₁
        rw [heq₂] at this
        exact this
      exact e₂.trans e₁
  · next s₁ b bs heq₁ =>
    have := backlogCount_heroAttempt now s
    rw [heq₁] at this
    exact this

theorem backlogCount_assignDiscovery_le (now : Int) (l : List Player) :
    backlogCount (assignDiscovery now l).1 ≤ backlogCount l :=
  backlogCount_assignDiscoveryAux_le now (l.length + 1) l

theorem assignDiscovery_not_throttled (now : Int) (l : List Player)
    (hb : backlogCount l ≤ 100) :
    (assignDiscovery now l).2 ≠ DiscResult.throttled :=
  assignDiscoveryAux_not_throttled now (l.length + 1) l hb

theorem claimRefresh_fst (now : Int) (l : List Player) :
    (claimRefresh now l).1 = claimRefreshRows now (refreshCandIds l) l :=
  rfl

theorem bool_eq_false_of_ne_true {b : Bool} (h : ¬b = true) : b = false := by
  revert h
  cases b <;> simp

theorem backlogCount_heroPhase_next (now : Int) (s : Sched) (rd dd : Bool)
    (s' : Sched) (h : heroPhase now s rd dd = IterOut.next s') :
    backlogCount s'.players ≤ backlogCount s.players := by
  rcases hA : assignNextHero now s with ⟨s₁, r₁⟩
  have e₁ : backlogCount s₁.players = backlogCount s.players := by
    have := backlogCount_assignNextHero now s
    rw [hA] at this
    exact this
  unfold heroPhase at h
  rw [hA] at h
  cases r₁ with
  | some ids => simp at h
  | none =>
    by_cases hp : s₁.players.any heroEligible = true
    · simp only [hp, Bool.not_true, Bool.false_and, Bool.false_eq_true,
        if_false] at h
      cases hrd : (rd || dd) with
      | true =>
        rw [hrd] at h
        simp at h
      | false =>
        rw [hrd] at h
        simp only [Bool.false_eq_true, if_false] at h
        injection h with h'
        subst h'
        exact le_of_eq e₁
    · have hp' : s₁.players.any heroEligible = false := bool_eq_false_of_ne_true hp
      rcases hres : assignDiscovery now s₁.players with ⟨pl, r₂⟩
      have hple : backlogCount pl ≤ backlogCount s₁.players := by
        have := backlogCount_assignDiscovery_le now s₁.players
        rw [hres] at this
        exact this
      simp only [hp', Bool.not_false, Bool.true_and] at h
      cases dd with
      | true =>
        simp only [Bool.not_true, Bool.false_eq_true, if_false, Bool.or_true,
          if_true] at h
        simp at h
      | false =>
        simp only [Bool.not_false, if_true, hres, Bool.or_false] at h
        cases r₂ with
        | throttled =>
          injection h with h'
          subst h'
          exact le_trans hple (le_of_eq e₁)
        | empty =>
          cases hrd : rd with
          | true =>
            rw [hrd] at h
            simp at h
          | false =>
            rw [hrd] at h
            simp only [Bool.false_eq_true, if_false] at h
            injection h with h'
            subst h'
            exact le_trans hple (le_of_eq e₁)
        | task ids => simp at h

theorem backlogCount_loopIterate_next (now : Int) (s : Sched) (n : Nat)
    (s' : Sched) (h : loopIterate now s n = IterOut.next s') :
    backlogCount s'.players ≤ backlogCount s.players := by
  unfold loopIterate at h
  by_cases hdd : (n % 199 == 0) = true
  · simp only [hdd, if_true] at h
    rcases hres : assignDiscovery now s.players with ⟨pl, r⟩
    have hple : backlogCount pl ≤ backlogCount s.players := by
      have := backlogCount_assignDiscovery_le now s.players
      rw [hres] at this
      exact this
    rw [hres] at h
    cases r with
    | throttled =>
      injection h with h'
      subst h'
      exact hple
    | empty =>
      injection h with h'
      subst h'
      show backlogCount (restartDiscoveryCycle pl) ≤ _
      rw [backlogCount_restartDiscoveryCycle pl]
      exact Nat.zero_le _
    | task ids => simp at h
  · have hdd' : (n % 199 == 0) = false := bool_eq_false_of_ne_true hdd
    by_cases hrr : (n % 11 == 0) = true
    · simp only [hdd', hrr, Bool.false_eq_true, if_false, if_true] at h
      rcases hcr : claimRefresh now s.players with ⟨pl, rets⟩
      have e : backlogCount pl = backlogCount s.players := by
        have h1 : (claimRefresh now s.players).1 = pl := by rw [hcr]
        rw [← h1, claimRefresh_fst]
        exact backlogCount_claimRefreshRows now _ s.players
      rw [hcr] at h
      cases rets with
      | nil =>
        exact le_trans (backlogCount_heroPhase_next now _ _ _ s' h)
          (le_of_eq e)
      | cons r rs =>
        dsimp only at h
        cases hie : (sortedIds (r :: rs)).isEmpty with
        | true =>
          rw [hie] at h
          simp only [if_true] at h
          injection h with h'
          subst h'
          exact le_of_eq e
        | false =>
          rw [hie] at h
          simp at h
    · have hrr' : (n % 11 == 0) = false := bool_eq_false_of_ne_true hrr
      simp only [hdd', hrr', Bool.false_eq_true, if_false] at h
      exact backlogCount_heroPhase_next now s _ _ s' h

theorem sortedIds_cons_ne_nil (r : Nat) (rs : List Nat) :
    sortedIds (r :: rs) ≠ [] := by
  unfold sortedIds
  intro h
  have hmem : r ∈ List.insertionSort (fun a b : Nat => a ≤ b) (r :: rs).dedup := by
    rw [(List.perm_insertionSort _ _).mem_iff, List.mem_dedup]
    exact List.mem_cons_self r rs
  rw [h] at hmem
  exact List.not_mem_nil r hmem

theorem heroPhase_done_refresh (now : Int) (s : Sched)
    (hb : backlogCount s.players ≤ 100) :
    ∃ t s', heroPhase now s true false = IterOut.done t s' := by
  unfold heroPhase
  split
  · exact ⟨_, _, rfl⟩
  · next s₁ heq₁ =>
    have hb₁ : backlogCount s₁.players ≤ 100 := by
      have := backlogCount_assignNextHero now s
      rw [heq₁] at this
      rw [this]
      exact hb
    by_cases hp : (s₁.players.any heroEligible) = true
    · refine ⟨none, s₁, ?_⟩
      simp [hp]
    · have hp' : (s₁.players.any heroEligible) = false := by
        revert hp
        cases s₁.players.any heroEligible <;> simp
      rcases hres : assignDiscovery now s₁.players with ⟨pl, r⟩
      cases r with
      | throttled =>
        exfalso
        have h2 : (assignDiscovery now s₁.players).2 = DiscResult.throttled := by
          rw [hres]
        exact assignDiscovery_not_throttled now s₁.players hb₁ h2
      | empty =>
        refine ⟨none, { s₁ with players := pl }, ?_⟩
        simp [hp', hres]
      | task ids =>
        refine ⟨some (Task.discover_matches ids),
          { s₁ with players := pl, counter := s₁.counter + 1 }, ?_⟩
        simp [hp', hres]

theorem loopIterate_done_at_refresh (now : Int) (s : Sched) (n : Nat)
    (hb : backlogCount s.players ≤ 100) (h11 : n % 11 = 0)
    (h199 : n % 199 ≠ 0) :
    ∃ t s', loopIterate now s n = IterOut.done t s' := by
  have hr : (n % 11 == 0) = true := by simp [h11]
  have hd : (n % 199 == 0) = false := by simp [h199]
  unfold loopIterate
  simp only [hr, hd, Bool.false_eq_true, if_false, if_true]
  rcases hcr : claimRefresh now s.players with ⟨pl, rets⟩
  have hbpl : backlogCount pl ≤ 100 := by
    have h1 : (claimRefresh now s.players).1 = pl := by rw [hcr]
    rw [← h1, claimRefresh_fst, backlogCount_claimRefreshRows now _ s.players]
    exact hb
  cases rets with
  | nil => exact heroPhase_done_refresh now { s with players := pl } hbpl
  | cons r rs =>
    have hne := sortedIds_cons_ne_nil r rs
    have hie : (sortedIds (r :: rs)).isEmpty = false := by
      cases hval : sortedIds (r :: rs) with
      | nil => exact absurd hval hne
      | cons x xs => rfl
    dsimp only
    rw [hie]
    simp only [Bool.false_eq_true, if_false]
    exact ⟨_, _, rfl⟩

theorem claimRefresh_of_no_eligible (now : Int) (players : List Player)
    (h : players.filter refreshEligible = []) :
    claimRefresh now players = (players, []) := by
  have hc : refreshCandIds players = [] := by
    unfold refreshCandIds
    rw [h]
    rfl
  have h1 : claimRefreshRows now (refreshCandIds players) players = players := by
    rw [hc]
    unfold claimRefreshRows
    apply List.map_id''
    intro p
    rw [if_neg]
    intro habs
    rw [Bool.and_eq_true, Bool.and_eq_true] at habs
    exact Bool.noConfusion habs.1.1
  have h2 : refreshReturnedIds players = [] := by
    unfold refreshReturnedIds
    rw [hc]
    have hf : players.filter (fun p =>
        (([] : List Nat)).contains p.steamAccountId && p.hero_done &&
          p.assigned_to.isNone) = [] := by
      rw [List.filter_eq_nil_iff]
      intro p _
      intro habs
      rw [Bool.and_eq_true, Bool.and_eq_true] at habs
      exact Bool.noConfusion habs.1.1
    rw [hf]
    rfl
  unfold claimRefresh
  rw [h1, h2]

theorem assignNextHeroAttempt_of_no_eligible (now : Int) (s : Sched)
    (h : s.players.filter heroEligible = []) :
    assignNextHeroAttempt now s = (s, []) := by
  have hel : ∀ p ∈ s.players, heroEligible p = false := by
    intro p hp
    exact bool_eq_false_of_ne_true (List.filter_eq_nil_iff.mp h p hp)
  have hcand : heroCandIds s = [] := by
    unfold heroCandIds
    have hf : s.players.filter (fun p =>
        heroEligible p && decide (s.heroCursor < (p.steamAccountId : Int))) =
          [] := by
      rw [List.filter_eq_nil_iff]
      intro p hp
      rw [hel p hp]
      simp
    rw [hf]
    rfl
  have hfall : heroFallbackIds s = [] := by
    unfold heroFallbackIds
    have hf : s.players.filter (fun p =>
        heroEligible p && decide (0 < p.steamAccountId)) = [] := by
      rw [List.filter_eq_nil_iff]
      intro p hp
      rw [hel p hp]
      simp
    rw [hf]
    rfl
  have hsel : heroSelectedIds s = [] := by
    unfold heroSelectedIds
    rw [hcand, hfall]
    rfl
  have hclaimed : heroClaimedIds s = [] := by
    unfold heroClaimedIds
    rw [hsel]
    have hf : s.players.filter (fun p =>
        (([] : List Nat)).contains p.steamAccountId && !p.hero_done &&
          p.assigned_to.isNone) = [] := by
      rw [List.filter_eq_nil_iff]
      intro p _
      intro habs
      rw [Bool.and_eq_true, Bool.and_eq_true] at habs
      exact Bool.noConfusion habs.1.1
    rw [hf]
    rfl
  have hrows : claimHeroRows now (heroSelectedIds s) s.players = s.players := by
    rw [hsel]
    unfold claimHeroRows
    apply List.map_id''
    intro p
    rw [if_neg]
    intro habs
    rw [Bool.and_eq_true, Bool.and_eq_true] at habs
    exact Bool.noConfusion habs.1.1
  unfold assignNextHeroAttempt
  simp only [hclaimed, hrows, List.isEmpty_nil, if_true]

theorem assignNextHero_of_no_eligible (now : Int) (s : Sched)
    (h : s.players.filter heroEligible = []) :
    assignNextHero now s = (s, none) := by
  have ha := assignNextHeroAttempt_of_no_eligible now s h
  simp only [assignNextHero, ha]

theorem heroPhase_stuck (now : Int) (s : Sched) (rd : Bool)
    (hnh : assignNextHero now s = (s, none))
    (hpend : s.players.any heroEligible = false)
    (ha : assignDiscovery now s.players = (s.players, DiscResult.throttled)) :
    heroPhase now s rd false = IterOut.next s := by
  unfold heroPhase
  rw [hnh]
  simp only [hpend, ha, Bool.not_false, Bool.true_and, if_true]

theorem loopIterate_stuck (now : Int) (s : Sched) (n : Nat)
    (hthrot : backlogCount s.players > 100)
    (hre : s.players.filter refreshEligible = [])
    (hh : s.players.filter heroEligible = []) :
    loopIterate now s n = IterOut.next s := by
  have hax : assignDiscovery now s.players = (s.players, DiscResult.throttled) :=
    (discovery_backlog_throttles_assignment now s 0 hthrot).1
  have hcr := claimRefresh_of_no_eligible now s.players hre
  have hnh := assignNextHero_of_no_eligible now s hh
  have hpend : s.players.any heroEligible = false := by
    rw [List.any_eq_false]
    exact fun p hp => List.filter_eq_nil_iff.mp hh p hp
  have hph : ∀ rd, heroPhase now s rd false = IterOut.next s := fun rd =>
    heroPhase_stuck now s rd hnh hpend hax
  unfold loopIterate
  by_cases hdd : (n % 199 == 0) = true
  · simp only [hdd, if_true, hax]
  · have hdd' : (n % 199 == 0) = false := bool_eq_false_of_ne_true hdd
    by_cases hrr : (n % 11 == 0) = true
    · simp only [hdd', hrr, Bool.false_eq_true, if_false, if_true, hcr]
      exact hph true
    · have hrr' : (n % 11 == 0) = false := bool_eq_false_of_ne_true hrr
      simp only [hdd', hrr', Bool.false_eq_true, if_false]
      exact hph false

theorem loopGo_stuck (now : Int) (s : Sched)
    (hthrot : backlogCount s.players > 100)
    (hre : s.players.filter refreshEligible = [])
    (hh : s.players.filter heroEligible = []) :
    ∀ fuel n, loopGo now fuel s n = none := by
  intro fuel
  induction fuel with
  | zero => intro n; rfl
  | succ fuel ih =>
    intro n
    unfold loopGo
    rw [loopIterate_stuck now s (n + 1) hthrot hre hh]
    exact ih (n + 1)

set_option maxRecDepth 8000 in
/-- Claim C7 as stated is false: the discovery-throttle `continue` bypasses
the "stop when due-conditions fired and nothing was found" break, so a call
can loop forever. In a store of 101 accounts that are all backlogged
(`discover_done=TRUE, full_write_done=FALSE, highest_match_id` set), all
claimed and with hero stats complete, every iteration — due or not — ends in
the throttle `continue`, and `loopGo` never finishes for any fuel. -/
theorem assignment_loop_termination_counterexample :
    ¬(∀ (s : Sched) (n : Nat), ∃ fuel r, loopGo 0 fuel s n = some r) := by
  intro hall
  obtain ⟨fuel, r, hr⟩ := hall
    (Sched.mk
      ((List.range 101).map fun i =>
        Player.mk (i + 1) 0 (some Assignee.hero) (some 0) none true (some 1)
          true false 0)
      0 0)
    0
  rw [loopGo_stuck 0 _ (by decide) (by decide) (by decide) fuel 0] at hr
  exact Option.noConfusion hr

theorem exists_refresh_boundary (n : Nat) :
    ∃ k, 1 ≤ k ∧ k ≤ 22 ∧ (n + k) % 11 = 0 ∧ (n + k) % 199 ≠ 0 := by
  by_cases h : (n + (11 - n % 11)) % 199 = 0
  · exact ⟨22 - n % 11, by omega, by omega, by omega, by omega⟩
  · exact ⟨11 - n % 11, by omega, by omega, by omega, h⟩

theorem loopGo_some_of_boundary (now : Int) :
    ∀ (fuel : Nat) (s : Sched) (n : Nat),
      backlogCount s.players ≤ 100 →
      (∃ k, 1 ≤ k ∧ k ≤ fuel ∧ (n + k) % 11 = 0 ∧ (n + k) % 199 ≠ 0) →
      ∃ r, loopGo now fuel s n = some r := by
  intro fuel
  induction fuel with
  | zero =>
    intro s n _ ⟨k, hk1, hk0, _, _⟩
    omega
  | succ fuel ih =>
    intro s n hb ⟨k, hk1, hkf, hk11, hk199⟩
    unfold loopGo
    cases hit : loopIterate now s (n + 1) with
    | done t s' => exact ⟨_, rfl⟩
    | next s' =>
      by_cases hk : k = 1
      · subst hk
        obtain ⟨t, s'', hdone⟩ :=
          loopIterate_done_at_refresh now s (n + 1) hb hk11 hk199
        rw [hdone] at hit
        exact IterOut.noConfusion hit
      · have hb' : backlogCount s'.players ≤ 100 :=
          le_trans (backlogCount_loopIterate_next now s (n + 1) s' hit) hb
        exact ih s' (n + 1) hb' ⟨k - 1, by omega, by omega, by omega, by omega⟩

/-- Claim C7 amended: provided the discovery backlog throttle is inactive
(backlog ≤ 100), the loop always terminates: within at most 22 iterations it
reaches a refresh-due, non-discovery-due boundary, and such an iteration
either hands out a task or stops with "no task". With the throttle active the
loop can run forever (see the counterexample), because the throttle
`continue` bypasses the due-boundary break. -/
theorem assignment_loop_terminates_when_unthrottled (now : Int) (s : Sched)
    (n : Nat) (hb : backlogCount s.players ≤ 100) :
    ∃ r, loopGo now 22 s n = some r := by
  apply loopGo_some_of_boundary now 22 s n hb
  obtain ⟨k, h1, h2, h3, h4⟩ := exists_refresh_boundary n
  exact ⟨k, h1, h2, h3, h4⟩

/-- Witness for C7 amended: from an empty store (backlog 0) the loop
finishes within the fuel bound. -/
theorem assignment_loop_terminates_when_unthrottled_witness :
    ∃ r, loopGo 0 22 (Sched.mk [] 0 0) 5 = some r :=
  assignment_loop_terminates_when_unthrottled 0 (Sched.mk [] 0 0) 5
    (by decide)

theorem rankLt_irrefl (a : TopRow) : ¬rankLt a a := by
  unfold rankLt
  omega

theorem rankLt_asymm {a b : TopRow} (h : rankLt a b) : ¬rankLt b a := by
  unfold rankLt at h ⊢
  omega

theorem rankLt_trans {a b c : TopRow} (h₁ : rankLt a b) (h₂ : rankLt b c) :
    rankLt a c := by
  unfold rankLt at h₁ h₂ ⊢
  omega

theorem rankLt_of_le_of_lt {a b c : TopRow} (h₁ : rankLe a b)
    (h₂ : rankLt b c) : rankLt a c := by
  unfold rankLe at h₁
  unfold rankLt at h₂ ⊢
  omega

theorem rankLt_of_lt_of_le {a b c : TopRow} (h₁ : rankLt a b)
    (h₂ : rankLe b c) : rankLt a c := by
  unfold rankLt at h₁ ⊢
  unfold rankLe at h₂
  omega

theorem rankLe_of_rankLt {a b : TopRow} (h : rankLt a b) : rankLe a b := by
  unfold rankLt at h
  unfold rankLe
  omega

theorem rankLt_of_rankLe_of_ne_id {a b : TopRow} (h : rankLe a b)
    (hne : a.steamAccountId ≠ b.steamAccountId) : rankLt a b := by
  unfold rankLe at h
  unfold rankLt
  omega

theorem rankLt_trichotomy_of_ne_id {a b : TopRow}
    (hne : a.steamAccountId ≠ b.steamAccountId) : rankLt a b ∨ rankLt b a := by
  unfold rankLt
  omega

theorem evictLe_iff_rankLe (a b : TopRow) : evictLe a b ↔ rankLe b a := by
  unfold evictLe rankLe
  omega

theorem nodup_rows_of_nodupIds {l : List TopRow} (h : nodupIds l) :
    l.Nodup :=
  List.Nodup.of_map _ h

theorem pairwise_rankLt_sort (S : List TopRow) (hnd : nodupIds S) :
    List.Pairwise rankLt (List.insertionSort rankLe S) := by
  have hle : List.Pairwise rankLe (List.insertionSort rankLe S) :=
    List.sorted_insertionSort rankLe S
  have hperm : (List.insertionSort rankLe S).Perm S :=
    List.perm_insertionSort rankLe S
  have hndsort : nodupIds (List.insertionSort rankLe S) :=
    ((hperm.map TopRow.steamAccountId).nodup_iff).mpr hnd
  have hne : List.Pairwise
      (fun a b : TopRow => a.steamAccountId ≠ b.steamAccountId)
      (List.insertionSort rankLe S) := List.pairwise_map.mp hndsort
  exact (hle.and hne).imp fun h => rankLt_of_rankLe_of_ne_id h.1 h.2

theorem nodup_of_pairwise_rankLt {L : List TopRow}
    (hp : List.Pairwise rankLt L) : L.Nodup := by
  apply hp.imp
  intro a b h he
  exact rankLt_irrefl b (he ▸ h)

theorem countP_sorted_get (L : List TopRow) (hp : List.Pairwise rankLt L) :
    ∀ (i : Nat) (h : i < L.length),
      L.countP (fun z => decide (rankLt z (L.get ⟨i, h⟩))) = i := by
  induction L with
  | nil => intro i h; simp at h
  | cons x rest ih =>
    intro i h
    have hx : ∀ z ∈ rest, rankLt x z := (List.pairwise_cons.mp hp).1
    have hrest : List.Pairwise rankLt rest := (List.pairwise_cons.mp hp).2
    cases i with
    | zero =>
      have hget : (x :: rest).get ⟨0, h⟩ = x := rfl
      rw [hget, List.countP_cons]
      have hz : rest.countP (fun z => decide (rankLt z x)) = 0 := by
        rw [List.countP_eq_zero]
        intro z hz
        simp only [decide_eq_true_eq]
        exact rankLt_asymm (hx z hz)
      rw [hz]
      simp [rankLt_irrefl x]
    | succ i =>
      have hlen : i < rest.length := by
        simp only [List.length_cons] at h
        omega
      have hget : (x :: rest).get ⟨i + 1, h⟩ = rest.get ⟨i, hlen⟩ := rfl
      rw [hget, List.countP_cons, ih hrest i hlen]
      have hxy : rankLt x rest[i] :=
        hx _ (List.get_mem rest i hlen)
      simp [hxy]

theorem mem_take_iff_countP (L : List TopRow)
    (hp : List.Pairwise rankLt L) (y : TopRow) (hy : y ∈ L) (K : Nat) :
    y ∈ L.take K ↔ L.countP (fun z => decide (rankLt z y)) < K := by
  have hndL : L.Nodup := nodup_of_pairwise_rankLt hp
  obtain ⟨i, hi⟩ := List.mem_iff_get.mp hy
  subst hi
  rw [countP_sorted_get L hp i.1 i.2]
  constructor
  · intro hmem
    obtain ⟨j, hj⟩ := List.mem_iff_get.mp hmem
    have hjm : j.1 < min K L.length := by
      have h2 := j.2
      simpa [List.length_take] using h2
    have hjL : j.1 < L.length := lt_of_lt_of_le hjm (min_le_right _ _)
    have hjK : j.1 < K := lt_of_lt_of_le hjm (min_le_left _ _)
    have hjeq : L.get ⟨j.1, hjL⟩ = (L.take K).get j :=
      List.get_take L hjL hjK
    have hij : (⟨j.1, hjL⟩ : Fin L.length) = i := by
      apply (List.Nodup.get_inj_iff hndL).mp
      rw [hjeq]
      exact hj
    have : j.1 = i.1 := congrArg Fin.val hij
    omega
  · intro hiK
    have hmin : i.1 < (L.take K).length := by
      rw [List.length_take]
      exact lt_min hiK i.2
    have hieq : L.get i = (L.take K).get ⟨i.1, hmin⟩ :=
      List.get_take L i.2 hiK
    rw [hieq]
    exact List.get_mem _ _ _

theorem mem_top100_iff (S : List TopRow) (hnd : nodupIds S) (y : TopRow) :
    y ∈ top100 S ↔ y ∈ S ∧ rankBelow S y < 100 := by
  have hperm : (List.insertionSort rankLe S).Perm S :=
    List.perm_insertionSort rankLe S
  have hp := pairwise_rankLt_sort S hnd
  have hcount : (List.insertionSort rankLe S).countP
      (fun z => decide (rankLt z y)) = rankBelow S y :=
    hperm.countP_eq _
  constructor
  · intro hmem
    have hyS : y ∈ List.insertionSort rankLe S :=
      (List.take_sublist _ _).subset hmem
    have := (mem_take_iff_countP _ hp y hyS 100).mp hmem
    rw [hcount] at this
    exact ⟨hperm.subset hyS, this⟩
  · intro ⟨hyS, hcnt⟩
    have hyS' : y ∈ List.insertionSort rankLe S := hperm.mem_iff.mpr hyS
    apply (mem_take_iff_countP _ hp y hyS' 100).mpr
    rw [hcount]
    exact hcnt

theorem countP_of_mem_erase (p : TopRow → Bool) (l : List TopRow) (y : TopRow)
    (hy : y ∈ l) :
    l.countP p = (l.erase y).countP p + (if p y then 1 else 0) := by
  rw [(List.perm_cons_erase hy).countP_eq p, List.countP_cons]

theorem rankBelow_lt_of_rankLt {S : List TopRow} {y x : TopRow} (hy : y ∈ S)
    (hyx : rankLt y x) : rankBelow S y < rankBelow S x := by
  unfold rankBelow
  rw [countP_of_mem_erase _ S y hy, countP_of_mem_erase _ S y hy]
  have h1 : (decide (rankLt y y)) = false := by simp [rankLt_irrefl y]
  have h2 : (decide (rankLt y x)) = true := by simp [hyx]
  rw [h1, h2]
  have hm : (S.erase y).countP (fun z => decide (rankLt z y)) ≤
      (S.erase y).countP (fun z => decide (rankLt z x)) := by
    apply List.countP_mono_left
    intro z _ hz
    simp only [decide_eq_true_eq] at hz ⊢
    exact rankLt_trans hz hyx
  simp only [Bool.false_eq_true, if_false, if_true]
  omega

theorem le_countP_of_nodup_sub (p : TopRow → Bool) (l sub : List TopRow)
    (hnd : sub.Nodup) (hsub : ∀ z ∈ sub, z ∈ l ∧ p z = true) :
    sub.length ≤ l.countP p := by
  rw [List.countP_eq_length_filter]
  apply List.Subperm.length_le
  apply hnd.subperm
  intro z hz
  rw [List.mem_filter]
  exact ⟨(hsub z hz).1, (hsub z hz).2⟩

theorem topRow_eq_of_fields {x y : TopRow}
    (h1 : x.steamAccountId = y.steamAccountId)
    (h2 : x.matchesCount = y.matchesCount) (h3 : x.wins = y.wins) : x = y := by
  cases x
  cases y
  simp_all

theorem rankLe_refl (a : TopRow) : rankLe a a := by
  unfold rankLe
  omega

theorem evictLe_refl (a : TopRow) : evictLe a a := by
  unfold evictLe
  omega

theorem rankLe_antisymm_row {a b : TopRow} (h1 : rankLe a b)
    (h2 : rankLe b a) : a = b := by
  cases a
  cases b
  unfold rankLe at h1 h2
  dsimp only at h1 h2
  simp only [TopRow.mk.injEq]
  omega

theorem top100_length (S : List TopRow) :
    (top100 S).length = min 100 S.length := by
  unfold top100
  rw [List.length_take, (List.perm_insertionSort rankLe S).length_eq]

theorem mem_of_mem_top100 {S : List TopRow} {y : TopRow}
    (h : y ∈ top100 S) : y ∈ S :=
  (List.perm_insertionSort rankLe S).subset ((List.take_sublist _ _).subset h)

theorem sorted_top100 (S : List TopRow) :
    List.Pairwise rankLe (top100 S) :=
  List.Pairwise.sublist (List.take_sublist _ _)
    (List.sorted_insertionSort rankLe S)

theorem nodupIds_top100 {S : List TopRow} (hnd : nodupIds S) :
    nodupIds (top100 S) := by
  unfold top100
  unfold nodupIds
  rw [List.map_take]
  apply List.Nodup.sublist (List.take_sublist _ _)
  exact (((List.perm_insertionSort rankLe S).map
    TopRow.steamAccountId).nodup_iff).mpr hnd

theorem mem_eq_of_nodupIds {S : List TopRow} (hnd : nodupIds S) {x y : TopRow}
    (hx : x ∈ S) (hy : y ∈ S)
    (hid : x.steamAccountId = y.steamAccountId) : x = y :=
  List.inj_on_of_nodup_map hnd hx hy hid

theorem perm_top100_of_mem (S l : List TopRow) (hndS : nodupIds S)
    (hndl : l.Nodup) (hlen : l.length = (top100 S).length)
    (hmem : ∀ y ∈ l, y ∈ S ∧ rankBelow S y < 100) : l.Perm (top100 S) := by
  have hsub : l.Subperm (top100 S) :=
    hndl.subperm fun y hy => (mem_top100_iff S hndS y).mpr (hmem y hy)
  obtain ⟨l', hperm, hsl⟩ := hsub
  have heq : l' = top100 S := by
    apply hsl.eq_of_length
    rw [hperm.length_eq, hlen]
  rw [heq] at hperm
  exact hperm.symm

theorem sort_lb_eq_top100 {facts lb : List TopRow} (hf : nodupIds facts)
    (hinv : lb.Perm (top100 facts)) :
    List.insertionSort rankLe lb = top100 facts := by
  apply List.eq_of_perm_of_sorted (r := rankLe)
    ((List.perm_insertionSort rankLe lb).trans hinv)
  · exact List.sorted_insertionSort rankLe lb
  · exact sorted_top100 facts

theorem rankBelow_of_get_sort (S : List TopRow) (hnd : nodupIds S) (n : Nat)
    (t : TopRow) (hget : (List.insertionSort rankLe S).get? n = some t) :
    rankBelow S t = n := by
  have hp := pairwise_rankLt_sort S hnd
  obtain ⟨hlt, hgt⟩ := List.get?_eq_some.mp hget
  have hc := countP_sorted_get (List.insertionSort rankLe S) hp n hlt
  rw [hgt] at hc
  unfold rankBelow
  rw [← (List.perm_insertionSort rankLe S).countP_eq]
  exact hc

theorem all_rankLe_of_get_last (L : List TopRow)
    (hs : List.Pairwise rankLe L) (t : TopRow) (hget : L.get? 99 = some t)
    (hlen : L.length ≤ 100) : ∀ y ∈ L, rankLe y t := by
  obtain ⟨hlt, hgt⟩ := List.get?_eq_some.mp hget
  have hdrop : L.drop 99 = [t] := by
    rw [List.drop_eq_getElem_cons hlt]
    have h2 : L.drop 100 = [] := by
      apply List.drop_eq_nil_of_le
      omega
    rw [h2]
    have : L[99] = t := hgt
    rw [this]
  intro y hy
  rw [← List.take_append_drop 99 L] at hs hy
  obtain ⟨_, _, hcross⟩ := List.pairwise_append.mp hs
  rcases List.mem_append.mp hy with h | h
  · exact hcross y h t (by rw [hdrop]; exact List.mem_singleton.mpr rfl)
  · rw [hdrop] at h
    rw [List.mem_singleton.mp h]
    exact rankLe_refl t

theorem head_sort_evict_eq (l : List TopRow) (t worst : TopRow) (ht : t ∈ l)
    (hall : ∀ z ∈ l, rankLe z t)
    (hhead : (List.insertionSort evictLe l).head? = some worst) : worst = t := by
  have hperm : (List.insertionSort evictLe l).Perm l :=
    List.perm_insertionSort evictLe l
  have hsorted : List.Pairwise evictLe (List.insertionSort evictLe l) :=
    List.sorted_insertionSort evictLe l
  cases hsl : List.insertionSort evictLe l with
  | nil => rw [hsl] at hhead; simp at hhead
  | cons w ws =>
    rw [hsl] at hhead
    have hw : worst = w := by
      simp only [List.head?_cons] at hhead
      exact (Option.some_inj.mp hhead).symm
    subst hw
    rw [hsl] at hsorted hperm
    have hmin : ∀ z ∈ l, evictLe worst z := by
      intro z hz
      have hz' : z ∈ worst :: ws := hperm.mem_iff.mpr hz
      rcases List.mem_cons.mp hz' with h | h
      · rw [h]; exact evictLe_refl worst
      · exact (List.pairwise_cons.mp hsorted).1 z h
    have h1 : rankLe t worst :=
      (evictLe_iff_rankLe worst t).mp (hmin t ht)
    have h2 : rankLe worst t :=
      hall worst (hperm.subset (List.mem_cons_self _ _))
    exact rankLe_antisymm_row h2 h1

theorem countP_append_cons (p : TopRow → Bool) (l₁ l₂ : List TopRow)
    (x : TopRow) :
    List.countP p (l₁ ++ x :: l₂) =
      List.countP p l₁ + List.countP p l₂ + (if p x then 1 else 0) := by
  rw [List.countP_append, List.countP_cons]
  omega

theorem exists_decomp_of_mem_id {S : List TopRow} {a : Nat} (hnd : nodupIds S)
    {x : TopRow} (hx : x ∈ S) (hid : x.steamAccountId = a) :
    ∃ l₁ l₂, S = l₁ ++ x :: l₂ ∧ (∀ z ∈ l₁, z.steamAccountId ≠ a) ∧
      ∀ z ∈ l₂, z.steamAccountId ≠ a := by
  obtain ⟨l₁, l₂, rfl⟩ := List.append_of_mem hx
  refine ⟨l₁, l₂, rfl, ?_, ?_⟩
  · intro z hz he
    unfold nodupIds at hnd
    rw [List.map_append, List.map_cons, List.nodup_append] at hnd
    exact hnd.2.2 (List.mem_map_of_mem _ hz)
      (by rw [he, ← hid]; exact List.mem_cons_self _ _)
  · intro z hz he
    unfold nodupIds at hnd
    rw [List.map_append, List.map_cons, List.nodup_append] at hnd
    have := List.nodup_cons.mp hnd.2.1
    exact this.1 (by rw [← hid] at he; rw [← he] at hid ⊢; exact
      (List.mem_map_of_mem TopRow.steamAccountId hz))

theorem find?_append_cons_of (p : TopRow → Bool) (l₁ l₂ : List TopRow)
    (x : TopRow) (h₁ : ∀ z ∈ l₁, p z = false) (hx : p x = true) :
    (l₁ ++ x :: l₂).find? p = some x := by
  induction l₁ with
  | nil =>
    rw [List.nil_append]
    exact List.find?_cons_of_pos _ hx
  | cons y ys ih =>
    rw [List.cons_append, List.find?_cons_of_neg]
    · exact ih fun z hz => h₁ z (List.mem_cons_of_mem _ hz)
    · rw [h₁ y (List.mem_cons_self _ _)]
      exact Bool.false_ne_true

theorem nodupIds_of_perm {l l' : List TopRow} (h : l.Perm l')
    (hnd : nodupIds l') : nodupIds l :=
  ((h.map TopRow.steamAccountId).nodup_iff).mpr hnd

theorem map_upsert_id (a : Nat) (m w : Int) (l : List TopRow)
    (h : ∀ z ∈ l, z.steamAccountId ≠ a) :
    l.map (fun t => if t.steamAccountId == a then
        (if m > t.matchesCount then { t with matchesCount := m, wins := w }
         else t)
      else t) = l := by
  conv_rhs => rw [← List.map_id l]
  apply List.map_congr_left
  intro z hz
  have hb : (z.steamAccountId == a) = false := by
    cases hbe : (z.steamAccountId == a) with
    | false => rfl
    | true => exact absurd (eq_of_beq hbe) (h z hz)
  rw [hb]
  rfl

theorem upsert_decomp (a : Nat) (m w : Int) {facts : List TopRow}
    {f0 : TopRow} {l₁ l₂ : List TopRow} (hfacts : facts = l₁ ++ f0 :: l₂)
    (hid : f0.steamAccountId = a) (h₁ : ∀ z ∈ l₁, z.steamAccountId ≠ a)
    (h₂ : ∀ z ∈ l₂, z.steamAccountId ≠ a) :
    upsertFact facts a m w = l₁ ++
      (if m > f0.matchesCount then { f0 with matchesCount := m, wins := w }
       else f0) :: l₂ := by
  subst hfacts
  unfold upsertFact
  have hany : ((l₁ ++ f0 :: l₂).any fun t => t.steamAccountId == a) = true := by
    rw [List.any_eq_true]
    exact ⟨f0, by simp, by simp [hid]⟩
  rw [hany]
  rw [if_pos rfl, List.map_append, List.map_cons,
    map_upsert_id a m w l₁ h₁, map_upsert_id a m w l₂ h₂]
  have hb : (f0.steamAccountId == a) = true := by simp [hid]
  rw [hb]
  rfl

theorem upsert_insert (facts : List TopRow) (a : Nat) (m w : Int)
    (h : ∀ z ∈ facts, z.steamAccountId ≠ a) :
    upsertFact facts a m w = facts ++ [TopRow.mk a m w] := by
  unfold upsertFact
  have hany : (facts.any fun t => t.steamAccountId == a) = false := by
    rw [List.any_eq_false]
    intro z hz hb
    exact h z hz (eq_of_beq hb)
  rw [hany]
  rfl

theorem findFact_decomp (a : Nat) {l₁ l₂ : List TopRow} {x : TopRow}
    (h₁ : ∀ z ∈ l₁, z.steamAccountId ≠ a) (hx : x.steamAccountId = a) :
    findFact (l₁ ++ x :: l₂) a = some x := by
  unfold findFact
  apply find?_append_cons_of
  · intro z hz
    cases hbe : (z.steamAccountId == a) with
    | false => rfl
    | true => exact absurd (eq_of_beq hbe) (h₁ z hz)
  · simp [hx]

theorem findFact_none_iff (l : List TopRow) (a : Nat) :
    findFact l a = none ↔ ∀ z ∈ l, z.steamAccountId ≠ a := by
  unfold findFact
  rw [List.find?_eq_none]
  constructor
  · intro h z hz he
    exact h z hz (by simp [he])
  · intro h z hz hb
    exact h z hz (eq_of_beq hb)

theorem findFact_some_mem {l : List TopRow} {a : Nat} {e : TopRow}
    (h : findFact l a = some e) : e ∈ l ∧ e.steamAccountId = a := by
  unfold findFact at h
  have hm := List.mem_of_find?_eq_some h
  have hsk := List.find?_some h
  exact ⟨hm, eq_of_beq hsk⟩

theorem processHeroStep_eq_of_find (facts lb : List TopRow) (a : Nat)
    (m w : Int) (r : TopRow)
    (hfind : findFact (upsertFact facts a m w) a = some r) :
    processHeroStep facts lb a m w =
      (upsertFact facts a m w, lbUpdate a r.matchesCount r.wins lb) := by
  simp only [processHeroStep, hfind]

theorem lbUpdate_none_preserves (facts facts' lb : List TopRow) (a : Nat)
    (r : TopRow) (hf : nodupIds facts) (hf' : nodupIds facts')
    (hinv : lb.Perm (top100 facts)) (hee : findFact lb a = none)
    (hra : r.steamAccountId = a) (hrf' : r ∈ facts')
    (hoth : ∀ y ∈ facts, y.steamAccountId ≠ a → y ∈ facts')
    (hflen : facts.length ≤ facts'.length)
    (hcntpos : ∀ y, rankLt r y →
      rankBelow facts' y ≤ rankBelow facts y + 1)
    (hcntneg : ∀ y, ¬rankLt r y → rankBelow facts' y ≤ rankBelow facts y)
    (hB : lb.length < 100 → (lb ++ [r]).Perm (top100 facts'))
    (hside : ∀ t, (List.insertionSort rankLe lb).get? 99 = some t →
      ¬(r.matchesCount = t.matchesCount ∧ r.wins = t.wins ∧
        a < t.steamAccountId)) :
    (lbUpdate a r.matchesCount r.wins lb).Perm (top100 facts') := by
  have hna : ∀ z ∈ lb, z.steamAccountId ≠ a := (findFact_none_iff lb a).mp hee
  have hndlb : nodupIds lb := nodupIds_of_perm hinv (nodupIds_top100 hf)
  have hmk : TopRow.mk a r.matchesCount r.wins = r :=
    topRow_eq_of_fields (by rw [hra]) rfl rfl
  simp only [lbUpdate, hee]
  by_cases hlt : lb.length < 100
  · rw [if_pos hlt, hmk]
    exact hB hlt
  · rw [if_neg hlt]
    have hlb_len : lb.length = 100 := by
      have hl := hinv.length_eq
      rw [top100_length] at hl
      omega
    have hsort_len : (List.insertionSort rankLe lb).length = 100 := by
      rw [(List.perm_insertionSort rankLe lb).length_eq, hlb_len]
    cases hth : (List.insertionSort rankLe lb).get? 99 with
    | none =>
      rw [List.get?_eq_none] at hth
      omega
    | some t =>
    dsimp only
    have hteq : List.insertionSort rankLe lb = top100 facts :=
      sort_lb_eq_top100 hf hinv
    have htmem : t ∈ lb :=
      (List.perm_insertionSort rankLe lb).subset (List.get?_mem hth)
    have hta : t.steamAccountId ≠ a := hna t htmem
    have h100f : 100 ≤ facts.length := by
      have hl := hinv.length_eq
      rw [top100_length] at hl
      omega
    have hrbt : rankBelow facts t = 99 := by
      apply rankBelow_of_get_sort facts hf 99 t
      have hg : (top100 facts).get? 99 = some t := by
        rw [← hteq]
        exact hth
      unfold top100 at hg
      rw [List.get?_take (by omega)] at hg
      exact hg
    have hall : ∀ y ∈ lb, rankLe y t := by
      intro y hy
      exact all_rankLe_of_get_last _ (List.sorted_insertionSort rankLe lb) t
        hth (by omega) y ((List.perm_insertionSort rankLe lb).mem_iff.mpr hy)
    have hmemlb : ∀ y ∈ lb, y ∈ facts ∧ rankBelow facts y < 100 := fun y hy =>
      (mem_top100_iff facts hf y).mp (hinv.subset hy)
    have hside' := hside t hth
    have hdiscard : rankLe t r → lb.Perm (top100 facts') := by
      intro htr
      apply perm_top100_of_mem facts' lb hf' (nodup_rows_of_nodupIds hndlb)
      · rw [top100_length]
        omega
      · intro y hy
        obtain ⟨hyf, hyrb⟩ := hmemlb y hy
        refine ⟨hoth y hyf (hna y hy), ?_⟩
        have hnr : ¬rankLt r y := by
          intro hr
          exact rankLt_irrefl y
            (rankLt_of_le_of_lt (hall y hy) (rankLt_of_le_of_lt htr hr))
        have hc := hcntneg y hnr
        omega
    rw [hmk]
    by_cases hd1 : r.matchesCount < t.matchesCount
    · rw [if_pos hd1]
      apply hdiscard
      unfold rankLe
      omega
    · rw [if_neg hd1]
      by_cases hd2 : r.matchesCount = t.matchesCount ∧ r.wins ≤ t.wins
      · rw [if_pos hd2]
        apply hdiscard
        unfold rankLe
        unfold rankLt at hside'
        omega
      · rw [if_neg hd2]
        have hrt : rankLt r t := by
          unfold rankLt
          omega
        have ht'' : t ∈ lb ++ [r] := List.mem_append_left _ htmem
        have hall'' : ∀ z ∈ lb ++ [r], rankLe z t := by
          intro z hz
          rcases List.mem_append.mp hz with h | h
          · exact hall z h
          · rw [List.mem_singleton.mp h]
            exact rankLe_of_rankLt hrt
        have hnd'' : nodupIds (lb ++ [r]) := by
          unfold nodupIds
          rw [List.map_append]
          rw [List.nodup_append]
          refine ⟨hndlb, by simp, ?_⟩
          intro x hx hx2
          simp only [List.map_cons, List.map_nil, List.mem_singleton] at hx2
          obtain ⟨z, hz, hze⟩ := List.mem_map.mp hx
          exact hna z hz (by rw [hze, hx2, hra])
        have hndrows'' : (lb ++ [r]).Nodup := nodup_rows_of_nodupIds hnd''
        cases hhd : (List.insertionSort evictLe (lb ++ [r])).head? with
        | none =>
          exfalso
          cases hsl : List.insertionSort evictLe (lb ++ [r]) with
          | nil =>
            have hlen'' := (List.perm_insertionSort evictLe (lb ++ [r])).length_eq
            rw [hsl] at hlen''
            simp at hlen''
          | cons v vs =>
            rw [hsl] at hhd
            simp at hhd
        | some worst =>
        dsimp only
        have hweq : worst = t :=
          head_sort_evict_eq (lb ++ [r]) t worst ht'' hall'' hhd
        rw [hweq]
        apply perm_top100_of_mem facts' _ hf'
          (hndrows''.sublist (List.erase_sublist _ _))
        · rw [List.length_erase_of_mem ht'', List.length_append,
            top100_length]
          simp only [List.length_cons, List.length_nil]
          omega
        · intro y hy
          obtain ⟨hynw, hymem⟩ := (hndrows''.mem_erase_iff).mp hy
          rcases List.mem_append.mp hymem with h | h
          · obtain ⟨hyf, hyrb⟩ := hmemlb y h
            have hyt : rankLt y t := by
              apply rankLt_of_rankLe_of_ne_id (hall y h)
              intro hid
              exact hynw (mem_eq_of_nodupIds hndlb h htmem hid)
            have hlt99 : rankBelow facts y < 99 := by
              have := rankBelow_lt_of_rankLt hyf hyt
              omega
            refine ⟨hoth y hyf (hna y h), ?_⟩
            by_cases hry : rankLt r y
            · have := hcntpos y hry
              omega
            · have := hcntneg y hry
              omega
          · rw [List.mem_singleton.mp h]
            refine ⟨hrf', ?_⟩
            have h1 : rankBelow facts' r < rankBelow facts' t :=
              rankBelow_lt_of_rankLt hrf' hrt
            have h2 := hcntpos t hrt
            omega

theorem lbUpdate_some_preserves (facts facts' lb : List TopRow) (a : Nat)
    (r e f0 : TopRow) (hf : nodupIds facts) (hf' : nodupIds facts')
    (hinv : lb.Perm (top100 facts)) (hee : findFact lb a = some e)
    (hra : r.steamAccountId = a) (hf0 : f0 ∈ facts)
    (hf0a : f0.steamAccountId = a) (hrf' : r ∈ facts')
    (hrbr : rankBelow facts' r ≤ rankBelow facts f0)
    (hoth : ∀ y ∈ facts, y.steamAccountId ≠ a → y ∈ facts')
    (hlenf : facts'.length = facts.length)
    (hcntneg : ∀ y, ¬rankLt r y → rankBelow facts' y ≤ rankBelow facts y)
    (hcntmid : ∀ y, rankLt r y → rankLt f0 y →
      rankBelow facts' y ≤ rankBelow facts y)
    (hcntjump : ∀ y, rankLt r y → ¬rankLt f0 y →
      rankBelow facts' y ≤ rankBelow facts y + 1) :
    (lbUpdate a r.matchesCount r.wins lb).Perm (top100 facts') := by
  obtain ⟨helb, hea⟩ := findFact_some_mem hee
  have hndlb : nodupIds lb := nodupIds_of_perm hinv (nodupIds_top100 hf)
  have hef : e ∈ facts := mem_of_mem_top100 (hinv.subset helb)
  have hef0 : e = f0 := mem_eq_of_nodupIds hf hef hf0 (by rw [hea, hf0a])
  have hrbf0 : rankBelow facts f0 < 100 := by
    have := (mem_top100_iff facts hf f0).mp (by rw [← hef0]; exact hinv.subset helb)
    exact this.2
  obtain ⟨q₁, q₂, hq, hq₁, hq₂⟩ := exists_decomp_of_mem_id hndlb helb hea
  have hmemq : ∀ y, (y ∈ q₁ ∨ y ∈ q₂) →
      y ∈ facts' ∧ rankBelow facts' y < 100 := by
    intro y hy
    have hylb : y ∈ lb := by
      rw [hq]
      rcases hy with h | h
      · exact List.mem_append_left _ h
      · exact List.mem_append_right _ (List.mem_cons_of_mem _ h)
    have hya : y.steamAccountId ≠ a := by
      rcases hy with h | h
      · exact hq₁ y h
      · exact hq₂ y h
    obtain ⟨hyf, hyrb⟩ := (mem_top100_iff facts hf y).mp (hinv.subset hylb)
    refine ⟨hoth y hyf hya, ?_⟩
    by_cases hry : rankLt r y
    · by_cases hfy : rankLt f0 y
      · have := hcntmid y hry hfy
        omega
      · have hyf0 : rankLt y f0 := by
          rcases rankLt_trichotomy_of_ne_id (a := y) (b := f0)
            (by rw [hf0a]; exact hya) with h | h
          · exact h
          · exact absurd h hfy
        have hstep : rankBelow facts y < rankBelow facts f0 :=
          rankBelow_lt_of_rankLt hyf hyf0
        have := hcntjump y hry hfy
        omega
    · have := hcntneg y hry
      omega
  have hform : ∀ l', l' = q₁ ++ r :: q₂ → l'.Perm (top100 facts') := by
    intro l' hl'
    subst hl'
    have hnd' : nodupIds (q₁ ++ r :: q₂) := by
      unfold nodupIds
      rw [List.map_append, List.map_cons, hra]
      have hids : lb.map TopRow.steamAccountId =
          q₁.map TopRow.steamAccountId ++ a :: q₂.map TopRow.steamAccountId := by
        rw [hq, List.map_append, List.map_cons, hea]
      rw [← hids]
      exact hndlb
    apply perm_top100_of_mem facts' _ hf' (nodup_rows_of_nodupIds hnd')
    · have hl1 : (q₁ ++ r :: q₂).length = lb.length := by
        rw [hq]
        simp
      rw [hl1, hinv.length_eq, top100_length, top100_length, hlenf]
    · intro y hy
      rcases List.mem_append.mp hy with h | h
      · exact hmemq y (Or.inl h)
      · rcases List.mem_cons.mp h with h | h
        · subst h
          exact ⟨hrf', by omega⟩
        · exact hmemq y (Or.inr h)
  simp only [lbUpdate, hee]
  by_cases hch : e.matchesCount ≠ r.matchesCount ∨ e.wins ≠ r.wins
  · rw [if_pos hch]
    apply hform
    have hmapid : ∀ l : List TopRow, (∀ z ∈ l, z.steamAccountId ≠ a) →
        l.map (fun t => if t.steamAccountId == a then
          { t with matchesCount := r.matchesCount, wins := r.wins }
        else t) = l := by
      intro l h
      conv_rhs => rw [← List.map_id l]
      apply List.map_congr_left
      intro z hz
      have hb : (z.steamAccountId == a) = false := by
        cases hbe : (z.steamAccountId == a) with
        | false => rfl
        | true => exact absurd (eq_of_beq hbe) (h z hz)
      rw [hb]
      rfl
    rw [hq, List.map_append, List.map_cons, hmapid q₁ hq₁, hmapid q₂ hq₂]
    have hb : (e.steamAccountId == a) = true := by simp [hea]
    have hmape : (if (e.steamAccountId == a) = true then
        { e with matchesCount := r.matchesCount, wins := r.wins }
      else e) = r := by
      rw [hb]
      show ({ e with matchesCount := r.matchesCount, wins := r.wins } :
        TopRow) = r
      exact topRow_eq_of_fields
        (by show e.steamAccountId = r.steamAccountId; rw [hea, hra]) rfl rfl
    exact congrArg (fun z => q₁ ++ z :: q₂) hmape
  · rw [if_neg hch]
    push_neg at hch
    have her : e = r :=
      topRow_eq_of_fields (by rw [hea, hra]) hch.1 hch.2
    apply hform
    rw [hq, her]

set_option maxRecDepth 100000 in
/-- **C2** (counterexample). The incremental leaderboard maintenance of
`process_hero_submission` does not always preserve the top-100 invariant
that `refresh_leaderboard_views` establishes: starting from a fact table and
leaderboard of 100 rows all tied at `(matches, wins) = (10, 5)` (accounts
`2..101`), a submission for account `1` with the same `(10, 5)` is discarded
by the threshold comparison (which ignores the `id ASC` tiebreak of the
ranking), yet the true top-100 of the updated fact table now contains
account `1` (its id is smaller than the threshold row's), so the maintained
leaderboard no longer equals the rebuild's top-100. -/
theorem leaderboard_threshold_tie_counterexample :
    tieBoard.Perm (top100 tieBoard) ∧
    (processHeroStep tieBoard tieBoard 1 10 5).2 = tieBoard ∧
    ¬((processHeroStep tieBoard tieBoard 1 10 5).2.Perm
      (top100 (processHeroStep tieBoard tieBoard 1 10 5).1)) := by
  refine ⟨?_, ?_, ?_⟩
  · decide
  · decide
  · decide

/-- **C2.** Amended invariant preservation: provided the submitted account's
merged row does not tie the rank-100 threshold row exactly on `(matches,
wins)` while having a smaller account id (the case the threshold comparison
gets wrong), one step of the incremental maintenance of
`process_hero_submission` preserves the invariant that the leaderboard is a
permutation of the true top-100 of the fact table under `(matches DESC,
wins DESC, steamAccountId ASC)`, and the leaderboard keeps at most 100
rows; the from-scratch rebuild `refresh_leaderboard_views` always yields at
most 100 rows per hero. -/
theorem leaderboard_update_preserves_top100 (facts lb : List TopRow)
    (a : Nat) (m w : Int) (hf : nodupIds facts)
    (hinv : lb.Perm (top100 facts))
    (hside : ∀ r t, findFact (upsertFact facts a m w) a = some r →
      findFact lb a = none →
      (List.insertionSort rankLe lb).get? 99 = some t →
      ¬(r.matchesCount = t.matchesCount ∧ r.wins = t.wins ∧
        a < t.steamAccountId)) :
    ((processHeroStep facts lb a m w).2.Perm
        (top100 (processHeroStep facts lb a m w).1) ∧
      (processHeroStep facts lb a m w).2.length ≤ 100) ∧
    ∀ S : List TopRow, (top100 S).length ≤ 100 := by
  refine ⟨?_, fun S => by rw [top100_length]; omega⟩
  by_cases hex : ∃ x ∈ facts, x.steamAccountId = a
  · obtain ⟨f0, hf0mem, hf0a⟩ := hex
    obtain ⟨l₁, l₂, hdec, h₁, h₂⟩ := exists_decomp_of_mem_id hf hf0mem hf0a
    obtain ⟨r, hrdef⟩ : ∃ r, r = (if m > f0.matchesCount then
        { f0 with matchesCount := m, wins := w } else f0) := ⟨_, rfl⟩
    have hup : upsertFact facts a m w = l₁ ++ r :: l₂ := by
      rw [hrdef]
      exact upsert_decomp a m w hdec hf0a h₁ h₂
    have hra : r.steamAccountId = a := by
      rw [hrdef]
      by_cases hgt : m > f0.matchesCount
      · rw [if_pos hgt]
        exact hf0a
      · rw [if_neg hgt]
        exact hf0a
    have hrle : rankLe r f0 := by
      rw [hrdef]
      by_cases hgt : m > f0.matchesCount
      · rw [if_pos hgt]
        show rankLe { f0 with matchesCount := m, wins := w } f0
        unfold rankLe
        dsimp only
        omega
      · rw [if_neg hgt]
        exact rankLe_refl f0
    have hfind : findFact (upsertFact facts a m w) a = some r := by
      rw [hup]
      exact findFact_decomp a h₁ hra
    rw [processHeroStep_eq_of_find facts lb a m w r hfind]
    dsimp only
    suffices hperm : (lbUpdate a r.matchesCount r.wins lb).Perm
        (top100 (upsertFact facts a m w)) by
      refine ⟨hperm, ?_⟩
      rw [hperm.length_eq, top100_length]
      omega
    have hf' : nodupIds (upsertFact facts a m w) := by
      unfold nodupIds
      rw [hup, List.map_append, List.map_cons, hra]
      have hids : facts.map TopRow.steamAccountId =
          l₁.map TopRow.steamAccountId ++
            a :: l₂.map TopRow.steamAccountId := by
        rw [hdec, List.map_append, List.map_cons, hf0a]
      rw [← hids]
      exact hf
    have hrf' : r ∈ upsertFact facts a m w := by
      rw [hup]
      exact List.mem_append_right _ (List.mem_cons_self _ _)
    have hoth : ∀ y ∈ facts, y.steamAccountId ≠ a →
        y ∈ upsertFact facts a m w := by
      intro y hy hya
      rw [hup]
      rw [hdec] at hy
      rcases List.mem_append.mp hy with h | h
      · exact List.mem_append_left _ h
      · rcases List.mem_cons.mp h with h | h
        · exact absurd (by rw [h]; exact hf0a) hya
        · exact List.mem_append_right _ (List.mem_cons_of_mem _ h)
    have hlenf : (upsertFact facts a m w).length = facts.length := by
      rw [hup, hdec]
      simp
    have hcnt : ∀ y : TopRow,
        rankBelow (upsertFact facts a m w) y +
          (if decide (rankLt f0 y) then 1 else 0) =
        rankBelow facts y + (if decide (rankLt r y) then 1 else 0) := by
      intro y
      unfold rankBelow
      rw [hup, hdec, countP_append_cons, countP_append_cons]
      omega
    have hcntpos : ∀ y, rankLt r y →
        rankBelow (upsertFact facts a m w) y ≤ rankBelow facts y + 1 := by
      intro y hp
      have hc := hcnt y
      rw [decide_eq_true hp] at hc
      by_cases hfy : rankLt f0 y
      · rw [decide_eq_true hfy] at hc
        simp at hc
        omega
      · rw [decide_eq_false hfy] at hc
        simp at hc
        omega
    have hcntneg : ∀ y, ¬rankLt r y →
        rankBelow (upsertFact facts a m w) y ≤ rankBelow facts y := by
      intro y hn
      have hc := hcnt y
      rw [decide_eq_false hn] at hc
      by_cases hfy : rankLt f0 y
      · rw [decide_eq_true hfy] at hc
        simp at hc
        omega
      · rw [decide_eq_false hfy] at hc
        simp at hc
        omega
    have hcntmid : ∀ y, rankLt r y → rankLt f0 y →
        rankBelow (upsertFact facts a m w) y ≤ rankBelow facts y := by
      intro y hp hfy
      have hc := hcnt y
      rw [decide_eq_true hp, decide_eq_true hfy] at hc
      simp at hc
      omega
    have hcntjump : ∀ y, rankLt r y → ¬rankLt f0 y →
        rankBelow (upsertFact facts a m w) y ≤ rankBelow facts y + 1 := by
      intro y hp hfy
      have hc := hcnt y
      rw [decide_eq_true hp, decide_eq_false hfy] at hc
      simp at hc
      omega
    have hrbr : rankBelow (upsertFact facts a m w) r ≤
        rankBelow facts f0 := by
      unfold rankBelow
      rw [hup, hdec, countP_append_cons, countP_append_cons]
      have hm1 : List.countP (fun z => decide (rankLt z r)) l₁ ≤
          List.countP (fun z => decide (rankLt z f0)) l₁ := by
        apply List.countP_mono_left
        intro z _ hz
        simp only [decide_eq_true_eq] at hz ⊢
        exact rankLt_of_lt_of_le hz hrle
      have hm2 : List.countP (fun z => decide (rankLt z r)) l₂ ≤
          List.countP (fun z => decide (rankLt z f0)) l₂ := by
        apply List.countP_mono_left
        intro z _ hz
        simp only [decide_eq_true_eq] at hz ⊢
        exact rankLt_of_lt_of_le hz hrle
      have hz1 : (decide (rankLt r r)) = false :=
        decide_eq_false (rankLt_irrefl r)
      have hz2 : (decide (rankLt f0 f0)) = false :=
        decide_eq_false (rankLt_irrefl f0)
      rw [hz1, hz2]
      simp only [Bool.false_eq_true, if_false]
      omega
    rcases hee : findFact lb a with _ | e
    · apply lbUpdate_none_preserves facts (upsertFact facts a m w) lb a r hf
        hf' hinv hee hra hrf' hoth (le_of_eq hlenf.symm) hcntpos hcntneg
        ?_ ?_
      · intro hlt
        exfalso
        have hlbl := hinv.length_eq
        rw [top100_length] at hlbl
        have hfl : facts.length < 100 := by omega
        have hf0nlb : f0 ∉ lb := fun hmem =>
          (findFact_none_iff lb a).mp hee f0 hmem hf0a
        have htop : top100 facts = List.insertionSort rankLe facts := by
          unfold top100
          apply List.take_of_length_le
          rw [(List.perm_insertionSort rankLe facts).length_eq]
          omega
        apply hf0nlb
        apply hinv.mem_iff.mpr
        rw [htop]
        exact (List.perm_insertionSort rankLe facts).mem_iff.mpr hf0mem
      · intro t hth
        exact hside r t hfind hee hth
    · exact lbUpdate_some_preserves facts (upsertFact facts a m w) lb a r e
        f0 hf hf' hinv hee hra hf0mem hf0a hrf' hrbr hoth hlenf hcntneg
        hcntmid hcntjump
  · push_neg at hex
    have hup : upsertFact facts a m w = facts ++ [TopRow.mk a m w] :=
      upsert_insert facts a m w hex
    have hfind : findFact (upsertFact facts a m w) a =
        some (TopRow.mk a m w) := by
      rw [hup]
      exact findFact_decomp a hex rfl
    rw [processHeroStep_eq_of_find facts lb a m w (TopRow.mk a m w) hfind]
    dsimp only
    suffices hperm : (lbUpdate a m w lb).Perm
        (top100 (upsertFact facts a m w)) by
      refine ⟨hperm, ?_⟩
      rw [hperm.length_eq, top100_length]
      omega
    have hf' : nodupIds (upsertFact facts a m w) := by
      unfold nodupIds
      rw [hup, List.map_append, List.nodup_append]
      refine ⟨hf, by simp, ?_⟩
      intro x hx hx2
      simp only [List.map_cons, List.map_nil, List.mem_singleton] at hx2
      obtain ⟨z, hz, hze⟩ := List.mem_map.mp hx
      exact hex z hz (by rw [hze, hx2])
    have hrf' : TopRow.mk a m w ∈ upsertFact facts a m w := by
      rw [hup]
      exact List.mem_append_right _ (List.mem_cons_self _ _)
    have hoth : ∀ y ∈ facts, y.steamAccountId ≠ a →
        y ∈ upsertFact facts a m w := by
      intro y hy _
      rw [hup]
      exact List.mem_append_left _ hy
    have hlenf : (upsertFact facts a m w).length = facts.length + 1 := by
      rw [hup]
      simp
    have hcnt : ∀ y : TopRow, rankBelow (upsertFact facts a m w) y =
        rankBelow facts y +
          (if decide (rankLt (TopRow.mk a m w) y) then 1 else 0) := by
      intro y
      unfold rankBelow
      rw [hup, List.countP_append]
      simp only [List.countP_cons, List.countP_nil]
      omega
    have hcntpos : ∀ y, rankLt (TopRow.mk a m w) y →
        rankBelow (upsertFact facts a m w) y ≤ rankBelow facts y + 1 := by
      intro y hp
      have hc := hcnt y
      rw [decide_eq_true hp] at hc
      simp at hc
      omega
    have hcntneg : ∀ y, ¬rankLt (TopRow.mk a m w) y →
        rankBelow (upsertFact facts a m w) y ≤ rankBelow facts y := by
      intro y hp
      have hc := hcnt y
      rw [decide_eq_false hp] at hc
      simp at hc
      omega
    rcases hee : findFact lb a with _ | e
    · apply lbUpdate_none_preserves facts (upsertFact facts a m w) lb a
        (TopRow.mk a m w) hf hf' hinv hee rfl hrf' hoth (by omega) hcntpos
        hcntneg ?_ ?_
      · intro hlt
        have hlbl := hinv.length_eq
        rw [top100_length] at hlbl
        have hfl : facts.length < 100 := by omega
        have htop : top100 facts = List.insertionSort rankLe facts := by
          unfold top100
          apply List.take_of_length_le
          rw [(List.perm_insertionSort rankLe facts).length_eq]
          omega
        have htop' : top100 (upsertFact facts a m w) =
            List.insertionSort rankLe (upsertFact facts a m w) := by
          unfold top100
          apply List.take_of_length_le
          rw [(List.perm_insertionSort rankLe _).length_eq, hlenf]
          omega
        have h1 : lb.Perm facts := by
          rw [htop] at hinv
          exact hinv.trans (List.perm_insertionSort rankLe facts)
        have h2 : (upsertFact facts a m w).Perm
            (top100 (upsertFact facts a m w)) := by
          rw [htop']
          exact (List.perm_insertionSort rankLe _).symm
        have h3 : (lb ++ [TopRow.mk a m w]).Perm
            (upsertFact facts a m w) := by
          rw [hup]
          exact h1.append_right _
        exact h3.trans h2
      · intro t hth
        exact hside (TopRow.mk a m w) t hfind hee hth
    · exfalso
      obtain ⟨helb, hea⟩ := findFact_some_mem hee
      exact hex e (mem_of_mem_top100 (hinv.subset helb)) hea

/-- **C9.** If the asynchronous phase of hero-stat submission processing
fails with any exception, the compensating action restores the submitting
account to a re-schedulable state: its `hero_done` flag is rolled back to
false, `hero_refreshed_at` is reset to null, and the claim columns
(`assigned_to`, `assigned_at`) are cleared, while the account's remaining
columns keep their values and every other account's row is untouched; the
aborted transaction leaves `hero_stats` and `hero_top100` unchanged, and
the compensation step yields a normal state (the failure is logged only,
never surfaced to the worker that submitted the result). -/
theorem hero_submission_failure_compensation (s : SubmissionState)
    (sid : Nat) (m w : Int) (p : Player) :
    (process_hero_submission true sid m w s).heroFacts = s.heroFacts ∧
    (process_hero_submission true sid m w s).heroTop = s.heroTop ∧
    (process_hero_submission true sid m w s).players =
      s.players.map (unmarkHeroPlayer sid) ∧
    (p.steamAccountId = sid →
      (unmarkHeroPlayer sid p).hero_done = false ∧
      (unmarkHeroPlayer sid p).hero_refreshed_at = none ∧
      (unmarkHeroPlayer sid p).assigned_to = none ∧
      (unmarkHeroPlayer sid p).assigned_at = none ∧
      (unmarkHeroPlayer sid p).steamAccountId = p.steamAccountId ∧
      (unmarkHeroPlayer sid p).depth = p.depth ∧
      (unmarkHeroPlayer sid p).discover_done = p.discover_done ∧
      (unmarkHeroPlayer sid p).full_write_done = p.full_write_done ∧
      (unmarkHeroPlayer sid p).seen_count = p.seen_count ∧
      (unmarkHeroPlayer sid p).highest_match_id = p.highest_match_id) ∧
    (p.steamAccountId ≠ sid → unmarkHeroPlayer sid p = p) := by
  refine ⟨rfl, rfl, rfl, ?_, ?_⟩
  · intro h
    unfold unmarkHeroPlayer
    rw [if_pos h]
    exact ⟨rfl, rfl, rfl, rfl, rfl, rfl, rfl, rfl, rfl, rfl⟩
  · intro h
    unfold unmarkHeroPlayer
    rw [if_neg h]

/-- Witness for the C9 theorem at a concrete input: account 7, claimed for
`hero` and marked done, is fully unmarked by the compensation. -/
theorem hero_submission_failure_compensation_witness :
    (unmarkHeroPlayer 7 (Player.mk 7 1 (some Assignee.hero) (some 5)
        (some 9) true (some 3) true false 2)).hero_done = false ∧
    (unmarkHeroPlayer 7 (Player.mk 7 1 (some Assignee.hero) (some 5)
        (some 9) true (some 3) true false 2)).assigned_to = none :=
  have h := (hero_submission_failure_compensation
    (SubmissionState.mk [Player.mk 7 1 (some Assignee.hero) (some 5)
      (some 9) true (some 3) true false 2] [] [])
    7 1 0 (Player.mk 7 1 (some Assignee.hero) (some 5) (some 9) true
      (some 3) true false 2)).2.2.2.1 rfl
  ⟨h.1, h.2.2.1⟩

/-- Witness for the C2 theorem at a concrete input: the empty store. -/
theorem leaderboard_update_preserves_top100_witness :
    nodupIds ([] : List TopRow) ∧
    (([] : List TopRow).Perm (top100 ([] : List TopRow))) ∧
    (((processHeroStep [] [] 1 3 2).2.Perm
        (top100 (processHeroStep [] [] 1 3 2).1) ∧
      (processHeroStep [] [] 1 3 2).2.length ≤ 100) ∧
    ∀ S : List TopRow, (top100 S).length ≤ 100) :=
  ⟨List.Pairwise.nil, by decide,
    leaderboard_update_preserves_top100 [] [] 1 3 2 List.Pairwise.nil
      (by decide) (fun r t h1 h2 h3 => nomatch h3)⟩

end Stratz
